import Mathlib

/-!
# Verification of the PageFaultStat sampling/delta/dump engine

This file gives a shallow embedding, in Lean 4, of the core data model and
algorithms of the PageFaultStat page-fault monitor (the C sources
`faultstat` main/process/fault code, `cache.c` and `utils.c`), and proves or
refutes the specification claims about them.

Modelling conventions:
* C `int64_t` / `long` counters are modelled as `Int` (the counters involved
  stay far below 2^63, and no wraparound behaviour is claimed or exercised).
* C linked lists that are only ever traversed front-to-back and freshly built
  (the `next` sample lists) are modelled as Lean `List`s.
* The dual-purpose sort chains (`s_next` / `d_next` pointer fields inside
  `fault_info_t`) are additionally modelled *pointer-faithfully* in the
  `FaultstatPtr` namespace, with an explicit store `Nat → fault_rec` and
  `Option Nat` pointers, because `fault_dump` mixes the two chain fields and
  the distinction is observable there.
* External system queries (`getpwuid`, `/proc` reads) are oracle parameters.
-/

namespace Faultstat

/-- Value-level model of `fault_info_t` (faultstat.h): the per-process page
fault sample record.  The three link pointers (`next`, `s_next`, `d_next`) are
not part of this value model; lists model the `next` chains, and the
pointer-faithful model in `FaultstatPtr` carries the sort chains. -/
structure fault_info where
  pid : Int
  uid : Int
  uname : Option String
  cmdline : Option String
  min_fault : Int
  maj_fault : Int
  vm_swap : Int
  d_min_fault : Int
  d_maj_fault : Int
  alive : Bool
deriving Repr, DecidableEq

/-- `compare()` (process/fault code): sort comparison based on the
`sort_by` setting.  `sort_by` is the global sort-mode integer
(`SORT_MAJOR_MINOR = 0` … `SORT_SWAP = 6`); the C `switch` falls through to
`return true` for any other value. -/
def compare (sort_by : Nat) (f1 f2 : fault_info) : Bool :=
  match sort_by with
  | 0 => decide (f1.min_fault + f1.maj_fault < f2.min_fault + f2.maj_fault)
  | 1 => decide (f1.maj_fault < f2.maj_fault)
  | 2 => decide (f1.min_fault < f2.min_fault)
  | 3 => decide (f1.d_min_fault + f1.d_maj_fault < f2.d_min_fault + f2.d_maj_fault)
  | 4 => decide (f1.d_maj_fault < f2.d_maj_fault)
  | 5 => decide (f1.d_min_fault < f2.d_min_fault)
  | 6 => decide (f1.vm_swap < f2.vm_swap)
  | _ => true

/-- `fault_delta()` (process/fault code): compute page fault changes for one
new-tick record against the previous tick's list.  The C function walks
`fault_old_list`; on the first pid match it sets the new record's deltas to
new-cumulative minus old-cumulative and marks the old record alive; if no
record matches, the deltas are the new record's cumulative counters.  The
returned pair is (mutated new record, mutated old list). -/
def fault_delta (fault_new : fault_info) (fault_old_list : List fault_info) :
    fault_info × List fault_info :=
  match fault_old_list with
  | [] =>
      ({ fault_new with
          d_min_fault := fault_new.min_fault
          d_maj_fault := fault_new.maj_fault }, [])
  | fault_old :: rest =>
      if fault_new.pid = fault_old.pid then
        ({ fault_new with
            d_min_fault := fault_new.min_fault - fault_old.min_fault
            d_maj_fault := fault_new.maj_fault - fault_old.maj_fault },
         { fault_old with alive := true } :: rest)
      else
        let r := fault_delta fault_new rest
        (r.1, fault_old :: r.2)

end Faultstat

namespace Faultstat

/-- C1: for a new-tick record whose pid occurs in the previous-tick list,
`fault_delta` sets the deltas to the new cumulative counters minus the old
cumulative counters of the (first) matching previous record and marks that
previous record alive; when the new counters dominate the old ones both
deltas are the non-negative differences. -/
theorem fault_delta_matched (fault_new : fault_info) (pre post : List fault_info)
    (fault_old : fault_info)
    (hpre : ∀ x ∈ pre, fault_new.pid ≠ x.pid)
    (hpid : fault_new.pid = fault_old.pid) :
    fault_delta fault_new (pre ++ fault_old :: post) =
      ({ fault_new with
          d_min_fault := fault_new.min_fault - fault_old.min_fault
          d_maj_fault := fault_new.maj_fault - fault_old.maj_fault },
        pre ++ { fault_old with alive := true } :: post) ∧
    (fault_old.min_fault ≤ fault_new.min_fault →
      0 ≤ (fault_delta fault_new (pre ++ fault_old :: post)).1.d_min_fault) ∧
    (fault_old.maj_fault ≤ fault_new.maj_fault →
      0 ≤ (fault_delta fault_new (pre ++ fault_old :: post)).1.d_maj_fault) := by
  induction pre with
  | nil =>
      refine ⟨by simp [fault_delta, hpid], ?_, ?_⟩ <;>
        simp [fault_delta, hpid]
  | cons x xs ih =>
      have hx : fault_new.pid ≠ x.pid := hpre x (by simp)
      have ih' := ih (fun y hy => hpre y (by simp [hy]))
      refine ⟨?_, ?_, ?_⟩
      · simp only [List.cons_append, fault_delta, if_neg hx, List.append_eq]
        rw [ih'.1]
      · intro h
        simp only [List.cons_append, fault_delta, if_neg hx, List.append_eq]
        rw [ih'.1]
        simp
        omega
      · intro h
        simp only [List.cons_append, fault_delta, if_neg hx, List.append_eq]
        rw [ih'.1]
        simp
        omega

/-- Witness for C1 at a concrete input: previous record pid 10 with counters
(20, 5), new record pid 10 with counters (20, 9): deltas (0, 4). -/
theorem fault_delta_matched_witness :
    fault_delta ⟨10, 0, none, none, 20, 9, 0, 0, 0, false⟩
        [⟨10, 0, none, none, 20, 5, 0, 0, 0, false⟩] =
      (⟨10, 0, none, none, 20, 9, 0, 0, 4, false⟩,
        [⟨10, 0, none, none, 20, 5, 0, 0, 0, true⟩]) ∧
    (0 : Int) ≤ (fault_delta ⟨10, 0, none, none, 20, 9, 0, 0, 0, false⟩
        [⟨10, 0, none, none, 20, 5, 0, 0, 0, false⟩]).1.d_min_fault := by
  have h := fault_delta_matched ⟨10, 0, none, none, 20, 9, 0, 0, 0, false⟩ [] []
    ⟨10, 0, none, none, 20, 5, 0, 0, 0, false⟩ (by simp) (by decide)
  exact ⟨h.1, h.2.1 (by decide)⟩

/-- C3: for a new-tick record whose pid does not occur in the previous-tick
list (in particular on the first tick, when that list is empty),
`fault_delta` sets the deltas equal to the record's cumulative counters and
leaves the previous-tick list unchanged. -/
theorem fault_delta_unmatched (fault_new : fault_info) (old : List fault_info)
    (h : ∀ x ∈ old, fault_new.pid ≠ x.pid) :
    fault_delta fault_new old =
      ({ fault_new with
          d_min_fault := fault_new.min_fault
          d_maj_fault := fault_new.maj_fault }, old) := by
  induction old with
  | nil => simp [fault_delta]
  | cons x xs ih =>
      have hx : fault_new.pid ≠ x.pid := h x (by simp)
      have ih' := ih (fun y hy => h y (by simp [hy]))
      simp only [fault_delta, if_neg hx]
      rw [ih']

/-- Witness for C3 at a concrete input: new pid 11 with counters (3, 0)
against a previous list holding only pid 10: deltas (3, 0). -/
theorem fault_delta_unmatched_witness :
    fault_delta ⟨11, 0, none, none, 3, 0, 0, 0, 0, false⟩
        [⟨10, 0, none, none, 20, 5, 0, 0, 0, false⟩] =
      (⟨11, 0, none, none, 3, 0, 0, 3, 0, false⟩,
        [⟨10, 0, none, none, 20, 5, 0, 0, 0, false⟩]) :=
  fault_delta_unmatched ⟨11, 0, none, none, 3, 0, 0, 0, 0, false⟩
    [⟨10, 0, none, none, 20, 5, 0, 0, 0, false⟩] (by decide)

end Faultstat

namespace Faultstat

/-- The sort key that `compare` tests, per `sort_by` mode: `compare sb f1 f2`
decides `sort_key sb f1 < sort_key sb f2` for the seven real modes
(`SORT_MAJOR_MINOR` … `SORT_SWAP`). -/
def sort_key (sort_by : Nat) (f : fault_info) : Int :=
  match sort_by with
  | 0 => f.min_fault + f.maj_fault
  | 1 => f.maj_fault
  | 2 => f.min_fault
  | 3 => f.d_min_fault + f.d_maj_fault
  | 4 => f.d_maj_fault
  | 5 => f.d_min_fault
  | _ => f.vm_swap

theorem compare_eq_sort_key (sb : Nat) (h : sb < 7) (f1 f2 : fault_info) :
    compare sb f1 f2 = decide (sort_key sb f1 < sort_key sb f2) := by
  interval_cases sb <;> rfl

/-- One step of the dump sort: the C loop
`for (l = &sorted; *l; l = &(*l)->s_next) if (compare(*l, fault_info)) { fault_info->s_next = *l; break; } ... *l = fault_info;`
walks the NUL-terminated sorted chain and splices the record in before the
first chain member whose key is strictly smaller.  On the freshly zeroed
records the dump functions build each tick, the chain is exactly a list. -/
def insert_sorted (sort_by : Nat) (fi : fault_info) :
    List fault_info → List fault_info
  | [] => [fi]
  | x :: xs =>
      if compare sort_by x fi then fi :: x :: xs
      else x :: insert_sorted sort_by fi xs

/-- The sorted chain the dump functions build: every record of the new-tick
list is inserted in discovery order (`fault_dump` / `fault_dump_json` main
loop). -/
def sort_records (sort_by : Nat) (l : List fault_info) : List fault_info :=
  l.foldl (fun acc fi => insert_sorted sort_by fi acc) []

theorem insert_sorted_perm (sb : Nat) (fi : fault_info) (l : List fault_info) :
    (insert_sorted sb fi l).Perm (fi :: l) := by
  induction l with
  | nil => simp [insert_sorted]
  | cons x xs ih =>
      simp only [insert_sorted]
      cases hc : compare sb x fi
      · simpa using (ih.cons x).trans (List.Perm.swap fi x xs)
      · simp

theorem sort_records_perm (sb : Nat) (l : List fault_info) :
    (sort_records sb l).Perm l := by
  suffices h : ∀ acc : List fault_info,
      (l.foldl (fun acc fi => insert_sorted sb fi acc) acc).Perm (acc ++ l) by
    simpa using h []
  induction l with
  | nil => simp
  | cons x xs ih =>
      intro acc
      simp only [List.foldl_cons]
      refine (ih (insert_sorted sb x acc)).trans ?_
      have h1 : (insert_sorted sb x acc).Perm (x :: acc) := insert_sorted_perm sb x acc
      refine (h1.append_right xs).trans ?_
      have : (x :: acc) ++ xs = x :: (acc ++ xs) := by simp
      rw [this]
      exact (List.perm_middle).symm

theorem insert_sorted_pairwise (sb : Nat) (h : sb < 7) (fi : fault_info)
    (l : List fault_info)
    (hl : l.Pairwise (fun a b => sort_key sb b ≤ sort_key sb a)) :
    (insert_sorted sb fi l).Pairwise (fun a b => sort_key sb b ≤ sort_key sb a) := by
  induction l with
  | nil => simp [insert_sorted]
  | cons x xs ih =>
      rcases List.pairwise_cons.1 hl with ⟨hx, hxs⟩
      simp only [insert_sorted]
      cases hc : compare sb x fi
      · rw [compare_eq_sort_key sb h] at hc
        have hkx : ¬ sort_key sb x < sort_key sb fi := of_decide_eq_false hc
        simp only [Bool.false_eq_true, if_false]
        refine List.pairwise_cons.2 ⟨?_, ih hxs⟩
        intro y hy
        have hy' : y = fi ∨ y ∈ xs := by
          simpa using (insert_sorted_perm sb fi xs).mem_iff.1 hy
        rcases hy' with rfl | hy'
        · exact not_lt.1 hkx
        · exact hx y hy'
      · rw [compare_eq_sort_key sb h] at hc
        have hkx : sort_key sb x < sort_key sb fi := of_decide_eq_true hc
        simp only [if_true]
        refine List.pairwise_cons.2 ⟨?_, hl⟩
        intro y hy
        rcases List.mem_cons.1 hy with rfl | hy'
        · exact le_of_lt hkx
        · exact le_trans (hx y hy') (le_of_lt hkx)

theorem sort_records_pairwise (sb : Nat) (h : sb < 7) (l : List fault_info) :
    (sort_records sb l).Pairwise (fun a b => sort_key sb b ≤ sort_key sb a) := by
  suffices hgen : ∀ acc : List fault_info,
      acc.Pairwise (fun a b => sort_key sb b ≤ sort_key sb a) →
      (l.foldl (fun acc fi => insert_sorted sb fi acc) acc).Pairwise
        (fun a b => sort_key sb b ≤ sort_key sb a) by
    exact hgen [] (by simp)
  induction l with
  | nil => intro acc hacc; simpa using hacc
  | cons x xs ih =>
      intro acc hacc
      simp only [List.foldl_cons]
      exact ih _ (insert_sorted_pairwise sb h x acc hacc)

theorem insert_sorted_filter (sb : Nat) (h : sb < 7) (fi : fault_info)
    (l : List fault_info)
    (hl : l.Pairwise (fun a b => sort_key sb b ≤ sort_key sb a)) (v : Int) :
    (insert_sorted sb fi l).filter (fun f => decide (sort_key sb f = v)) =
      (l.filter (fun f => decide (sort_key sb f = v))) ++
        (if sort_key sb fi = v then [fi] else []) := by
  induction l with
  | nil => by_cases hv : sort_key sb fi = v <;> simp [insert_sorted, hv]
  | cons x xs ih =>
      rcases List.pairwise_cons.1 hl with ⟨hx, hxs⟩
      simp only [insert_sorted]
      cases hc : compare sb x fi
      · simp only [Bool.false_eq_true, if_false]
        rw [List.filter_cons, List.filter_cons]
        simp only [ih hxs]
        by_cases hxv : sort_key sb x = v <;> simp [hxv]
      · rw [compare_eq_sort_key sb h] at hc
        have hkx : sort_key sb x < sort_key sb fi := of_decide_eq_true hc
        simp only [if_true]
        by_cases hv : sort_key sb fi = v
        · have hnone : (x :: xs).filter (fun f => decide (sort_key sb f = v)) = [] := by
            rw [List.filter_eq_nil_iff]
            intro a ha
            have hle : sort_key sb a ≤ sort_key sb x := by
              rcases List.mem_cons.1 ha with rfl | ha'
              · exact le_refl _
              · exact hx a ha'
            have : sort_key sb a < sort_key sb fi := lt_of_le_of_lt hle hkx
            simp only [decide_eq_true_eq]
            omega
          rw [List.filter_cons]
          simp [hv, hnone]
        · rw [List.filter_cons]
          simp [hv]

theorem sort_records_filter (sb : Nat) (h : sb < 7) (l : List fault_info) (v : Int) :
    (sort_records sb l).filter (fun f => decide (sort_key sb f = v)) =
      l.filter (fun f => decide (sort_key sb f = v)) := by
  suffices hgen : ∀ acc : List fault_info,
      acc.Pairwise (fun a b => sort_key sb b ≤ sort_key sb a) →
      (l.foldl (fun acc fi => insert_sorted sb fi acc) acc).filter
          (fun f => decide (sort_key sb f = v)) =
        acc.filter (fun f => decide (sort_key sb f = v)) ++
          l.filter (fun f => decide (sort_key sb f = v)) by
    simpa using hgen [] (by simp)
  induction l with
  | nil => intro acc hacc; simp
  | cons x xs ih =>
      intro acc hacc
      simp only [List.foldl_cons]
      rw [ih _ (insert_sorted_pairwise sb h x acc hacc)]
      rw [insert_sorted_filter sb h x acc hacc v]
      rw [List.filter_cons]
      by_cases hxv : sort_key sb x = v <;> simp [hxv]

theorem insert_sorted_append (sb : Nat) (h : sb < 7) (fi : fault_info)
    (l : List fault_info)
    (hge : ∀ a ∈ l, sort_key sb fi ≤ sort_key sb a) :
    insert_sorted sb fi l = l ++ [fi] := by
  induction l with
  | nil => simp [insert_sorted]
  | cons x xs ih =>
      have hx : ¬ sort_key sb x < sort_key sb fi :=
        not_lt.2 (hge x (by simp))
      simp only [insert_sorted, compare_eq_sort_key sb h]
      simp only [decide_eq_true_eq]
      rw [if_neg hx]
      rw [ih (fun a ha => hge a (by simp [ha]))]
      simp

theorem sort_records_of_sorted (sb : Nat) (h : sb < 7) (l : List fault_info)
    (hl : l.Pairwise (fun a b => sort_key sb b ≤ sort_key sb a)) :
    sort_records sb l = l := by
  suffices hgen : ∀ l : List fault_info,
      l.Pairwise (fun a b => sort_key sb b ≤ sort_key sb a) →
      ∀ acc : List fault_info,
      (∀ a ∈ acc, ∀ b ∈ l, sort_key sb b ≤ sort_key sb a) →
      l.foldl (fun acc fi => insert_sorted sb fi acc) acc = acc ++ l by
    simpa using hgen l hl [] (by simp)
  intro l
  induction l with
  | nil => intro _ acc _; simp
  | cons x xs ih =>
      intro hl' acc hacc
      rcases List.pairwise_cons.1 hl' with ⟨hx, hxs⟩
      simp only [List.foldl_cons]
      rw [insert_sorted_append sb h x acc (fun a ha => hacc a ha x (by simp))]
      rw [ih hxs (acc ++ [x]) ?_]
      · simp
      · intro a ha b hb
        rcases List.mem_append.1 ha with ha' | ha'
        · exact le_trans (hx b hb) (hacc a ha' x (by simp))
        · have : a = x := by simpa using ha'
          subst this
          exact hx b hb

end Faultstat

namespace Faultstat

/-- C5: for every sample list and fixed sort key, the insertion into the
sorted chain yields a permutation of the input in descending key order, ties
(equal keys) keep discovery order, and re-sorting an unchanged (already
sorted) sample set returns it unchanged — the sort is deterministic and
stable. -/
theorem sort_chain_correct (sort_by : Nat) (h : sort_by < 7) (l : List fault_info) :
    (sort_records sort_by l).Perm l ∧
    (sort_records sort_by l).Pairwise
      (fun a b => sort_key sort_by b ≤ sort_key sort_by a) ∧
    (∀ v : Int,
      (sort_records sort_by l).filter (fun f => decide (sort_key sort_by f = v)) =
        l.filter (fun f => decide (sort_key sort_by f = v))) ∧
    sort_records sort_by (sort_records sort_by l) = sort_records sort_by l :=
  ⟨sort_records_perm sort_by l, sort_records_pairwise sort_by h l,
   fun v => sort_records_filter sort_by h l v,
   sort_records_of_sorted sort_by h _ (sort_records_pairwise sort_by h l)⟩

/-- Witness for C5 with `sort_by = SORT_MAJOR_MINOR` on three records with
keys 2, 5, 2 (a tie between the first and last discovered): the sorted chain
is descending with the tie in discovery order, and sorting it again leaves it
unchanged. -/
theorem sort_chain_correct_witness :
    sort_records 0
        [⟨1, 0, none, none, 1, 1, 0, 0, 0, false⟩,
         ⟨2, 0, none, none, 4, 1, 0, 0, 0, false⟩,
         ⟨3, 0, none, none, 2, 0, 0, 0, 0, false⟩] =
      [⟨2, 0, none, none, 4, 1, 0, 0, 0, false⟩,
       ⟨1, 0, none, none, 1, 1, 0, 0, 0, false⟩,
       ⟨3, 0, none, none, 2, 0, 0, 0, 0, false⟩] ∧
    (sort_records 0
        [⟨1, 0, none, none, 1, 1, 0, 0, 0, false⟩,
         ⟨2, 0, none, none, 4, 1, 0, 0, 0, false⟩,
         ⟨3, 0, none, none, 2, 0, 0, 0, 0, false⟩]).Pairwise
      (fun a b => sort_key 0 b ≤ sort_key 0 a) ∧
    sort_records 0 (sort_records 0
        [⟨1, 0, none, none, 1, 1, 0, 0, 0, false⟩,
         ⟨2, 0, none, none, 4, 1, 0, 0, 0, false⟩,
         ⟨3, 0, none, none, 2, 0, 0, 0, 0, false⟩]) =
      sort_records 0
        [⟨1, 0, none, none, 1, 1, 0, 0, 0, false⟩,
         ⟨2, 0, none, none, 4, 1, 0, 0, 0, false⟩,
         ⟨3, 0, none, none, 2, 0, 0, 0, 0, false⟩] :=
  ⟨by decide,
   (sort_chain_correct 0 (by decide)
     [⟨1, 0, none, none, 1, 1, 0, 0, 0, false⟩,
      ⟨2, 0, none, none, 4, 1, 0, 0, 0, false⟩,
      ⟨3, 0, none, none, 2, 0, 0, 0, 0, false⟩]).2.1,
   (sort_chain_correct 0 (by decide)
     [⟨1, 0, none, none, 1, 1, 0, 0, 0, false⟩,
      ⟨2, 0, none, none, 4, 1, 0, 0, 0, false⟩,
      ⟨3, 0, none, none, 2, 0, 0, 0, 0, false⟩]).2.2.2⟩

end Faultstat

namespace Faultstat

/-- One element of the `"processes"` array emitted by `fault_dump_json`
(field names as in the JSON text). -/
structure json_proc where
  pid : Int
  major : Int
  minor : Int
  deltaMajor : Int
  deltaMinor : Int
  swap : Int
  user : String
  command : String
deriving Repr, DecidableEq

/-- The `"totals"` object emitted by `fault_dump_json`. -/
structure json_totals where
  major : Int
  minor : Int
  deltaMajor : Int
  deltaMinor : Int
  swap : Int
deriving Repr, DecidableEq

/-- `uname_name()` (utils.c): fetch the user name, `"<unknown>"` for a NULL
uname pointer. -/
def uname_name (uname : Option String) : String := uname.getD "<unknown>"

/-- `get_cmdline()` (process/fault code): the record's command line,
`"<unknown>"` when the process-cache pointer or its cmdline is NULL (the
weak process-cache reference is collapsed into the record's `cmdline`
field in this model). -/
def get_cmdline (fault_info : fault_info) : String :=
  fault_info.cmdline.getD "<unknown>"

/-- One iteration of the `fault_dump_json` main loop over the new-tick list:
compute the record's deltas against the old list (`fault_delta`), splice the
record into the sorted chain, and add the record's five values to the running
totals.  State is (old list, sorted chain, totals). -/
def fault_dump_json_step (sort_by : Nat)
    (st : List fault_info × List fault_info × json_totals)
    (fi : fault_info) :
    List fault_info × List fault_info × json_totals :=
  let r := fault_delta fi st.1
  (r.2, insert_sorted sort_by r.1 st.2.1,
    { major := st.2.2.major + r.1.maj_fault
      minor := st.2.2.minor + r.1.min_fault
      deltaMajor := st.2.2.deltaMajor + r.1.d_maj_fault
      deltaMinor := st.2.2.deltaMinor + r.1.d_min_fault
      swap := st.2.2.swap + r.1.vm_swap })

/-- `fault_dump_json()` (process/fault code): walk the new-tick list in
discovery order (delta, sort-insertion, totals), then emit one JSON object
per sorted-chain member plus the totals object.  There is no pass over the
old list: died processes are never visited.  The trailing Unix timestamp is
an external clock value and is not part of this model. -/
def fault_dump_json (sort_by : Nat)
    (fault_info_old fault_info_new : List fault_info) :
    List json_proc × json_totals :=
  let st := fault_info_new.foldl (fault_dump_json_step sort_by)
    (fault_info_old, [], ⟨0, 0, 0, 0, 0⟩)
  (st.2.1.map (fun fi =>
      { pid := fi.pid
        major := fi.maj_fault
        minor := fi.min_fault
        deltaMajor := fi.d_maj_fault
        deltaMinor := fi.d_min_fault
        swap := fi.vm_swap
        user := uname_name fi.uname
        command := get_cmdline fi }), st.2.2)

theorem fault_delta_pid (fault_new : fault_info) (old : List fault_info) :
    (fault_delta fault_new old).1.pid = fault_new.pid := by
  induction old with
  | nil => simp [fault_delta]
  | cons x xs ih =>
      by_cases hx : fault_new.pid = x.pid
      · simp [fault_delta, hx]
      · simpa [fault_delta, hx] using ih

/-- Skipping lemma: a previous-tick record whose pid matches no new record is
merely walked over by `fault_delta`; removing it changes neither the computed
record nor the rest of the traversal. -/
theorem fault_delta_skip (fi d : fault_info) (hpid : fi.pid ≠ d.pid)
    (pre post : List fault_info) :
    ∃ pre' post' : List fault_info,
      fault_delta fi (pre ++ d :: post) =
        ((fault_delta fi (pre ++ post)).1, pre' ++ d :: post') ∧
      (fault_delta fi (pre ++ post)).2 = pre' ++ post' := by
  induction pre with
  | nil =>
      refine ⟨[], (fault_delta fi post).2, ?_, by simp⟩
      simp only [List.nil_append, fault_delta, if_neg hpid]
  | cons x xs ih =>
      by_cases hx : fi.pid = x.pid
      · exact ⟨{ x with alive := true } :: xs, post,
          by simp [fault_delta, hx], by simp [fault_delta, hx]⟩
      · rcases ih with ⟨pre', post', h1, h2⟩
        refine ⟨x :: pre', post', ?_, ?_⟩
        · simp only [List.cons_append, fault_delta, if_neg hx, List.append_eq]
          rw [h1]
        · simp only [List.cons_append, fault_delta, if_neg hx, List.append_eq]
          rw [h2]

end Faultstat

namespace Faultstat

theorem fault_delta_fields (fault_new : fault_info) (old : List fault_info) :
    (fault_delta fault_new old).1.min_fault = fault_new.min_fault ∧
    (fault_delta fault_new old).1.maj_fault = fault_new.maj_fault ∧
    (fault_delta fault_new old).1.vm_swap = fault_new.vm_swap := by
  induction old with
  | nil => simp [fault_delta]
  | cons x xs ih =>
      by_cases hx : fault_new.pid = x.pid
      · simp [fault_delta, hx]
      · simpa [fault_delta, hx] using ih

theorem fault_dump_json_skip_died (sb : Nat) (d : fault_info)
    (new : List fault_info) (hnew : ∀ fi ∈ new, fi.pid ≠ d.pid)
    (pre post : List fault_info) :
    fault_dump_json sb (pre ++ d :: post) new =
      fault_dump_json sb (pre ++ post) new := by
  suffices hgen : ∀ l : List fault_info, (∀ fi ∈ l, fi.pid ≠ d.pid) →
      ∀ (pre post sorted : List fault_info) (t : json_totals),
      (l.foldl (fault_dump_json_step sb) (pre ++ d :: post, sorted, t)).2 =
        (l.foldl (fault_dump_json_step sb) (pre ++ post, sorted, t)).2 by
    have h := hgen new hnew pre post [] ⟨0, 0, 0, 0, 0⟩
    simp only [fault_dump_json, h]
  intro l
  induction l with
  | nil => intro _ pre post sorted t; rfl
  | cons fi l ih =>
      intro hl pre post sorted t
      have hfi : fi.pid ≠ d.pid := hl fi (by simp)
      rcases fault_delta_skip fi d hfi pre post with ⟨pre', post', h1, h2⟩
      simp only [List.foldl_cons]
      have e1 : fault_dump_json_step sb (pre ++ d :: post, sorted, t) fi =
          (pre' ++ d :: post',
            (fault_dump_json_step sb (pre ++ post, sorted, t) fi).2) := by
        simp only [fault_dump_json_step, h1]
      have e2 : fault_dump_json_step sb (pre ++ post, sorted, t) fi =
          (pre' ++ post',
            (fault_dump_json_step sb (pre ++ post, sorted, t) fi).2) := by
        simp only [fault_dump_json_step, h2]
      rw [e1, e2]
      exact ih (fun y hy => hl y (by simp [hy])) pre' post' _ _

theorem fault_dump_json_rows_perm (sb : Nat) (old new : List fault_info) :
    ((fault_dump_json sb old new).1.map json_proc.pid).Perm
      (new.map fault_info.pid) := by
  suffices hgen : ∀ (l o sorted : List fault_info) (t : json_totals),
      ((l.foldl (fault_dump_json_step sb) (o, sorted, t)).2.1.map
          fault_info.pid).Perm
        (sorted.map fault_info.pid ++ l.map fault_info.pid) by
    have h := hgen new old [] ⟨0, 0, 0, 0, 0⟩
    simp only [fault_dump_json, List.map_map]
    simpa using h
  intro l
  induction l with
  | nil => intro o sorted t; simp
  | cons fi l ih =>
      intro o sorted t
      simp only [List.foldl_cons, fault_dump_json_step]
      refine (ih _ _ _).trans ?_
      have hperm :=
        (insert_sorted_perm sb (fault_delta fi o).1 sorted).map fault_info.pid
      refine (hperm.append_right _).trans ?_
      simp only [List.map_cons, fault_delta_pid, List.cons_append]
      exact List.perm_middle.symm

theorem fault_dump_json_totals (sb : Nat) (old new : List fault_info) :
    (fault_dump_json sb old new).2.major = (new.map fault_info.maj_fault).sum ∧
    (fault_dump_json sb old new).2.minor = (new.map fault_info.min_fault).sum ∧
    (fault_dump_json sb old new).2.swap = (new.map fault_info.vm_swap).sum := by
  suffices hgen : ∀ (l o sorted : List fault_info) (t : json_totals),
      (l.foldl (fault_dump_json_step sb) (o, sorted, t)).2.2 =
        { major := t.major + (l.map fault_info.maj_fault).sum
          minor := t.minor + (l.map fault_info.min_fault).sum
          deltaMajor := (l.foldl (fault_dump_json_step sb) (o, sorted, t)).2.2.deltaMajor
          deltaMinor := (l.foldl (fault_dump_json_step sb) (o, sorted, t)).2.2.deltaMinor
          swap := t.swap + (l.map fault_info.vm_swap).sum } by
    have h := hgen new old [] ⟨0, 0, 0, 0, 0⟩
    refine ⟨?_, ?_, ?_⟩ <;>
      · simp only [fault_dump_json]
        rw [h]
        simp
  intro l
  induction l with
  | nil => intro o sorted t; simp
  | cons fi l ih =>
      intro o sorted t
      simp only [List.foldl_cons]
      rw [ih]
      rcases fault_delta_fields fi o with ⟨hmin, hmaj, hswap⟩
      simp only [fault_dump_json_step, hmin, hmaj, hswap, List.map_cons, List.sum_cons]
      simp only [json_totals.mk.injEq]
      exact ⟨by ring, by ring, trivial, trivial, by ring⟩

end Faultstat

namespace Faultstat

/-- C4 counterexample: previous tick holds pid 10 with cumulative counters
(minor 20, major 5); the new tick holds only pid 11 with (minor 3, major 0).
The JSON totals are exactly the new-record sums (deltaMinor 3, deltaMajor 0):
the died pid-10 process contributes nothing to any totals field for the tick
(its tick contribution per the delta engine would be deltaMinor 3-20,
deltaMajor 0-5), refuting the claim that the totals reflect died processes
via the delta engine's bookkeeping. -/
theorem fault_dump_json_died_cex :
    (fault_dump_json 0
        [⟨10, 0, none, none, 20, 5, 0, 0, 0, false⟩]
        [⟨11, 0, none, none, 3, 0, 0, 0, 0, false⟩]).2 =
      ⟨0, 3, 0, 3, 0⟩ ∧
    (fault_dump_json 0
        [⟨10, 0, none, none, 20, 5, 0, 0, 0, false⟩]
        [⟨11, 0, none, none, 3, 0, 0, 0, 0, false⟩]).2.deltaMinor ≠ 3 - 20 ∧
    (fault_dump_json 0
        [⟨10, 0, none, none, 20, 5, 0, 0, 0, false⟩]
        [⟨11, 0, none, none, 3, 0, 0, 0, 0, false⟩]).2.deltaMajor ≠ 0 - 5 ∧
    (fault_dump_json 0
        [⟨10, 0, none, none, 20, 5, 0, 0, 0, false⟩]
        [⟨11, 0, none, none, 3, 0, 0, 0, 0, false⟩]).1.length = 1 := by
  decide

/-- C4 (amended): the machine-readable dump emits exactly one object per
record in the new-tick list (its rows are a pid-permutation of the new list)
and no separate rows for died processes; but died processes are *not*
represented in that tick's JSON totals either — the five totals are
accumulated over the new-tick records only, so removing a previous-tick
record whose pid matches no new-tick record leaves the entire JSON document
unchanged, and the major/minor/swap totals are the plain sums over the
new-tick records. -/
theorem fault_dump_json_spec (sb : Nat) (old new : List fault_info)
    (d : fault_info) (pre post : List fault_info)
    (hold : old = pre ++ d :: post)
    (hd : ∀ fi ∈ new, fi.pid ≠ d.pid) :
    ((fault_dump_json sb old new).1.map json_proc.pid).Perm
      (new.map fault_info.pid) ∧
    fault_dump_json sb old new = fault_dump_json sb (pre ++ post) new ∧
    (fault_dump_json sb old new).2.major = (new.map fault_info.maj_fault).sum ∧
    (fault_dump_json sb old new).2.minor = (new.map fault_info.min_fault).sum ∧
    (fault_dump_json sb old new).2.swap = (new.map fault_info.vm_swap).sum := by
  subst hold
  rcases fault_dump_json_totals sb (pre ++ d :: post) new with ⟨h1, h2, h3⟩
  exact ⟨fault_dump_json_rows_perm sb _ new,
    fault_dump_json_skip_died sb d new hd pre post, h1, h2, h3⟩

/-- Witness for C4's amended claim at the counterexample input: the one JSON
row is pid 11, the document equals the one produced with the died pid-10
record absent, and the totals are the new-record sums. -/
theorem fault_dump_json_spec_witness :
    ((fault_dump_json 0
        [⟨10, 0, none, none, 20, 5, 0, 0, 0, false⟩]
        [⟨11, 0, none, none, 3, 0, 0, 0, 0, false⟩]).1.map json_proc.pid).Perm
      ([⟨11, 0, none, none, 3, 0, 0, 0, 0, false⟩].map fault_info.pid) ∧
    fault_dump_json 0
        [⟨10, 0, none, none, 20, 5, 0, 0, 0, false⟩]
        [⟨11, 0, none, none, 3, 0, 0, 0, 0, false⟩] =
      fault_dump_json 0 []
        [⟨11, 0, none, none, 3, 0, 0, 0, 0, false⟩] ∧
    (fault_dump_json 0
        [⟨10, 0, none, none, 20, 5, 0, 0, 0, false⟩]
        [⟨11, 0, none, none, 3, 0, 0, 0, 0, false⟩]).2.minor = 3 := by
  have h := fault_dump_json_spec 0
    [⟨10, 0, none, none, 20, 5, 0, 0, 0, false⟩]
    [⟨11, 0, none, none, 3, 0, 0, 0, 0, false⟩]
    ⟨10, 0, none, none, 20, 5, 0, 0, 0, false⟩ [] [] rfl (by decide)
  exact ⟨h.1, h.2.1, by rw [h.2.2.2.1]; decide⟩

end Faultstat

namespace FaultstatPtr

/-- Pointer-faithful model of `fault_info_t` for `fault_dump`: the numeric
fields plus the two sort-chain pointer fields (`s_next`, used for the full
dump's sorted output, and `d_next`, used for the diff dump's chain).
Pointers are `Option Nat` indices into an explicit store (`none` = NULL).
The `next` list linkage is passed separately as the index list of each
sample set, since `fault_dump` never modifies it. -/
structure fault_rec where
  pid : Int
  min_fault : Int
  maj_fault : Int
  vm_swap : Int
  d_min_fault : Int
  d_maj_fault : Int
  s_next : Option Nat
  d_next : Option Nat
  alive : Bool
deriving Repr, DecidableEq

/-- The record heap: fault records addressed by index. -/
abbrev Store := Nat → fault_rec

/-- Overwrite the record at index `i`. -/
def set_rec (σ : Store) (i : Nat) (r : fault_rec) : Store :=
  fun j => if j = i then r else σ j

/-- Write the `s_next` pointer of record `i`. -/
def set_s_next (σ : Store) (i : Nat) (p : Option Nat) : Store :=
  set_rec σ i { σ i with s_next := p }

/-- Write the `d_next` pointer of record `i`. -/
def set_d_next (σ : Store) (i : Nat) (p : Option Nat) : Store :=
  set_rec σ i { σ i with d_next := p }

theorem set_rec_self (σ : Store) (i : Nat) (r : fault_rec) :
    set_rec σ i r i = r := by simp [set_rec]

theorem set_rec_other (σ : Store) (i : Nat) (r : fault_rec) (j : Nat)
    (h : j ≠ i) : set_rec σ i r j = σ j := by simp [set_rec, h]

/-- `compare()` over pointer-model records (same `switch` as the value
model). -/
def compare (sort_by : Nat) (f1 f2 : fault_rec) : Bool :=
  match sort_by with
  | 0 => decide (f1.min_fault + f1.maj_fault < f2.min_fault + f2.maj_fault)
  | 1 => decide (f1.maj_fault < f2.maj_fault)
  | 2 => decide (f1.min_fault < f2.min_fault)
  | 3 => decide (f1.d_min_fault + f1.d_maj_fault < f2.d_min_fault + f2.d_maj_fault)
  | 4 => decide (f1.d_maj_fault < f2.d_maj_fault)
  | 5 => decide (f1.d_min_fault < f2.d_min_fault)
  | 6 => decide (f1.vm_swap < f2.vm_swap)
  | _ => true

/-- `fault_delta()` over the store: record `i` is the new-tick record, the
old list is given as its index sequence.  First pid match: set `i`'s deltas
to new minus old and mark the old record alive; no match: deltas equal the
cumulative counters. -/
def fault_delta (σ : Store) (i : Nat) : List Nat → Store
  | [] =>
      set_rec σ i { σ i with
        d_min_fault := (σ i).min_fault
        d_maj_fault := (σ i).maj_fault }
  | j :: rest =>
      if (σ i).pid = (σ j).pid then
        let σ1 := set_rec σ i { σ i with
          d_min_fault := (σ i).min_fault - (σ j).min_fault
          d_maj_fault := (σ i).maj_fault - (σ j).maj_fault }
        set_rec σ1 j { σ1 j with alive := true }
      else fault_delta σ i rest

/-- The `fault_dump` new-record insertion loop
(`for (l = &sorted; *l; l = &(*l)->s_next) { if (compare(*l, fi)) { fi->s_next = *l; break; } } *l = fi;`):
walks the chain through `s_next` pointers; returns the updated store and the
new content of the slot the walk started from.  `fuel` bounds the walk (the
C loop terminates only at NULL; every chain the program builds is finite). -/
def insert_s (sort_by : Nat) (σ : Store) (i : Nat) :
    Option Nat → Nat → Store × Option Nat
  | none, _ => (σ, some i)
  | some k, 0 => (σ, some k)
  | some k, fuel+1 =>
      if compare sort_by (σ k) (σ i) then
        (set_s_next σ i (some k), some i)
      else
        let r := insert_s sort_by σ i (σ k).s_next fuel
        (set_s_next r.1 k r.2, some k)

/-- The `fault_dump` died-record insertion loop: identical walk but through
the `d_next` pointers (`l = &(*l)->d_next`, `fault_info->d_next = (*l)`). -/
def insert_d (sort_by : Nat) (σ : Store) (i : Nat) :
    Option Nat → Nat → Store × Option Nat
  | none, _ => (σ, some i)
  | some k, 0 => (σ, some k)
  | some k, fuel+1 =>
      if compare sort_by (σ k) (σ i) then
        (set_d_next σ i (some k), some i)
      else
        let r := insert_d sort_by σ i (σ k).d_next fuel
        (set_d_next r.1 k r.2, some k)

/-- The output traversal of `fault_dump`
(`for (fault_info = sorted; fault_info; fault_info = fault_info->s_next)`):
the indices of the rows printed, following `s_next` from the chain head. -/
def s_chain (σ : Store) : Option Nat → Nat → List Nat
  | none, _ => []
  | some _, 0 => []
  | some i, fuel+1 => i :: s_chain σ (σ i).s_next fuel

/-- Loop state of `fault_dump`: heap, chain head (`sorted`), and the four
totals accumulators. -/
structure dump_state where
  heap : Store
  sorted : Option Nat
  t_min_fault : Int
  t_maj_fault : Int
  t_d_min_fault : Int
  t_d_maj_fault : Int

/-- One iteration of `fault_dump`'s first loop (over the new-tick list):
`fault_delta`, insertion into the sorted chain via `s_next`, then add the
record's counters and deltas to the totals. -/
def fault_dump_new_step (sort_by fuel : Nat) (old_idx : List Nat)
    (st : dump_state) (i : Nat) : dump_state :=
  let σ1 := fault_delta st.heap i old_idx
  let r := insert_s sort_by σ1 i st.sorted fuel
  { heap := r.1
    sorted := r.2
    t_min_fault := st.t_min_fault + (r.1 i).min_fault
    t_maj_fault := st.t_maj_fault + (r.1 i).maj_fault
    t_d_min_fault := st.t_d_min_fault + (r.1 i).d_min_fault
    t_d_maj_fault := st.t_d_maj_fault + (r.1 i).d_maj_fault }

/-- One iteration of `fault_dump`'s second loop (over the previous-tick
list): records marked alive are skipped; a died record is spliced into the
chain *via the `d_next` pointers*, its counters are added to the running
totals, its deltas are set to the negated counters and added to the delta
totals, and its displayed counters are zeroed — in exactly this order, as in
the C code. -/
def fault_dump_died_step (sort_by fuel : Nat) (st : dump_state) (j : Nat) :
    dump_state :=
  if (st.heap j).alive then st
  else
    let r := insert_d sort_by st.heap j st.sorted fuel
    let t_min := st.t_min_fault + (r.1 j).min_fault
    let t_maj := st.t_maj_fault + (r.1 j).maj_fault
    let σ2 := set_rec r.1 j { r.1 j with
      d_min_fault := -(r.1 j).min_fault
      d_maj_fault := -(r.1 j).maj_fault }
    let t_d_min := st.t_d_min_fault + (σ2 j).d_min_fault
    let t_d_maj := st.t_d_maj_fault + (σ2 j).d_maj_fault
    let σ3 := set_rec σ2 j { σ2 j with min_fault := 0, maj_fault := 0 }
    { heap := σ3
      sorted := r.2
      t_min_fault := t_min
      t_maj_fault := t_maj
      t_d_min_fault := t_d_min
      t_d_maj_fault := t_d_maj }

/-- The first `fault_dump` loop, folded over the new-tick index list. -/
def new_pass (sort_by fuel : Nat) (old_idx : List Nat) (st : dump_state)
    (todo : List Nat) : dump_state :=
  todo.foldl (fault_dump_new_step sort_by fuel old_idx) st

/-- The second `fault_dump` loop, folded over the previous-tick index list. -/
def died_pass (sort_by fuel : Nat) (st : dump_state) (old_idx : List Nat) :
    dump_state :=
  old_idx.foldl (fault_dump_died_step sort_by fuel) st

/-- `fault_dump()` (pointer-faithful): first loop over the new list, second
loop over the old list, then the printed rows are the `s_next` traversal
from the chain head.  Returns the final state and the row indices. -/
def fault_dump (sort_by fuel : Nat) (σ : Store) (new_idx old_idx : List Nat) :
    dump_state × List Nat :=
  let st1 := new_pass sort_by fuel old_idx ⟨σ, none, 0, 0, 0, 0⟩ new_idx
  let st2 := died_pass sort_by fuel st1 old_idx
  (st2, s_chain st2.heap st2.sorted fuel)

end FaultstatPtr

namespace FaultstatPtr

/-- The NUL-terminated `s_next` chain starting at a pointer, as a judgement:
`is_s_chain σ p L` states that following `s_next` from `p` visits exactly
the indices `L` and ends at NULL. -/
inductive is_s_chain (σ : Store) : Option Nat → List Nat → Prop
  | nil : is_s_chain σ none []
  | cons (k : Nat) (l : List Nat) :
      is_s_chain σ (σ k).s_next l → is_s_chain σ (some k) (k :: l)

/-- List-level description of one `insert_s` splice: insert `i` before the
first chain member whose key compares below `i`'s. -/
def insert_list (sort_by : Nat) (σ : Store) (i : Nat) : List Nat → List Nat
  | [] => [i]
  | k :: l =>
      if compare sort_by (σ k) (σ i) then i :: k :: l
      else k :: insert_list sort_by σ i l

theorem mem_insert_list {sb : Nat} {σ : Store} {i : Nat} {L : List Nat} {x : Nat}
    (h : x ∈ insert_list sb σ i L) : x = i ∨ x ∈ L := by
  induction L with
  | nil => simpa [insert_list] using h
  | cons k l ih =>
      by_cases hc : compare sb (σ k) (σ i) = true
      · rw [insert_list, if_pos hc] at h
        simpa using h
      · rw [insert_list, if_neg hc] at h
        rcases List.mem_cons.1 h with rfl | h'
        · exact Or.inr (by simp)
        · rcases ih h' with h'' | h''
          · exact Or.inl h''
          · exact Or.inr (by simp [h''])

theorem insert_list_nodup {sb : Nat} {σ : Store} {i : Nat} {L : List Nat}
    (hi : i ∉ L) (h : L.Nodup) : (insert_list sb σ i L).Nodup := by
  induction L with
  | nil => simp [insert_list]
  | cons k l ih =>
      rcases List.nodup_cons.1 h with ⟨hk, hl⟩
      have hi' : i ∉ l := fun hm => hi (by simp [hm])
      have hik : i ≠ k := fun he => hi (by simp [he])
      by_cases hc : compare sb (σ k) (σ i) = true
      · rw [insert_list, if_pos hc]
        exact List.nodup_cons.2 ⟨by simp [hik, hi'], h⟩
      · rw [insert_list, if_neg hc]
        refine List.nodup_cons.2 ⟨?_, ih hi' hl⟩
        intro hmem
        rcases mem_insert_list hmem with rfl | h'
        · exact hik rfl
        · exact hk h'

theorem insert_list_length (sb : Nat) (σ : Store) (i : Nat) (L : List Nat) :
    (insert_list sb σ i L).length = L.length + 1 := by
  induction L with
  | nil => simp [insert_list]
  | cons k l ih =>
      by_cases hc : compare sb (σ k) (σ i) = true
      · rw [insert_list, if_pos hc]; simp
      · rw [insert_list, if_neg hc]; simp [ih]

/-- A chain judgement only reads the `s_next` pointers of its members. -/
theorem is_s_chain_congr {σ σ' : Store} {p : Option Nat} {L : List Nat}
    (h : is_s_chain σ p L)
    (hs : ∀ j ∈ L, (σ' j).s_next = (σ j).s_next) :
    is_s_chain σ' p L := by
  induction h with
  | nil => exact is_s_chain.nil
  | cons k l htail ih =>
      refine is_s_chain.cons k l ?_
      rw [hs k (by simp)]
      exact ih (fun j hj => hs j (by simp [hj]))

/-- The executable traversal agrees with the chain judgement as soon as the
fuel covers the chain length. -/
theorem s_chain_eq {σ : Store} {p : Option Nat} {L : List Nat}
    (h : is_s_chain σ p L) :
    ∀ fuel, L.length ≤ fuel → s_chain σ p fuel = L := by
  induction h with
  | nil => intro fuel _; cases fuel <;> rfl
  | cons k l htail ih =>
      intro fuel hfuel
      cases fuel with
      | zero => simp at hfuel
      | succ f =>
          show k :: s_chain σ (σ k).s_next f = k :: l
          rw [ih f (by simpa using hfuel)]

/-- `σ'` agrees with `σ` everywhere except possibly on `s_next` pointers. -/
def eq_except_s (σ σ' : Store) : Prop :=
  ∀ j, σ' j = { σ j with s_next := (σ' j).s_next }

theorem eq_except_s_refl (σ : Store) : eq_except_s σ σ := fun _ => rfl

theorem eq_except_s_trans {σ1 σ2 σ3 : Store}
    (h12 : eq_except_s σ1 σ2) (h23 : eq_except_s σ2 σ3) :
    eq_except_s σ1 σ3 := by
  intro j
  calc σ3 j = { σ2 j with s_next := (σ3 j).s_next } := h23 j
    _ = { σ1 j with s_next := (σ3 j).s_next } := by rw [h12 j]

theorem eq_except_s_set_s_next (σ : Store) (i : Nat) (p : Option Nat) :
    eq_except_s σ (set_s_next σ i p) := by
  intro j
  by_cases h : j = i
  · subst h; simp [set_s_next, set_rec]
  · simp [set_s_next, set_rec, h]

/-- Core specification of the new-record insertion: on a well-formed chain
whose members exclude the fresh record `i` (whose own `s_next` is NULL),
`insert_s` produces the chain `insert_list` describes, changes only `s_next`
pointers, and leaves records outside `{i} ∪ chain` entirely untouched. -/
theorem insert_s_spec (sb : Nat) (σ : Store) (i : Nat) {p : Option Nat}
    {L : List Nat} (hL : is_s_chain σ p L) :
    ∀ fuel : Nat, L.Nodup → i ∉ L → (σ i).s_next = none → L.length ≤ fuel →
    is_s_chain (insert_s sb σ i p fuel).1 (insert_s sb σ i p fuel).2
      (insert_list sb σ i L) ∧
    eq_except_s σ (insert_s sb σ i p fuel).1 ∧
    (∀ j, j ≠ i → j ∉ L → (insert_s sb σ i p fuel).1 j = σ j) := by
  induction hL with
  | nil =>
      intro fuel _ _ hfresh _
      have he1 : (insert_s sb σ i none fuel).1 = σ := by cases fuel <;> rfl
      have he2 : (insert_s sb σ i none fuel).2 = some i := by cases fuel <;> rfl
      rw [he1, he2]
      refine ⟨?_, eq_except_s_refl σ, fun j _ _ => rfl⟩
      show is_s_chain σ (some i) (insert_list sb σ i [])
      refine is_s_chain.cons i [] ?_
      rw [hfresh]
      exact is_s_chain.nil
  | cons k l htail ih =>
      intro fuel hnd hi hfresh hfuel
      have hik : i ≠ k := fun he => hi (by simp [he])
      have hil : i ∉ l := fun hm => hi (by simp [hm])
      rcases List.nodup_cons.1 hnd with ⟨hkl, hndl⟩
      cases fuel with
      | zero => simp at hfuel
      | succ f =>
          by_cases hc : compare sb (σ k) (σ i) = true
          · -- insert before the head
            have he : insert_s sb σ i (some k) (f + 1) =
                (set_s_next σ i (some k), some i) := by
              simp only [insert_s]
              rw [if_pos hc]
            have he1 : (insert_s sb σ i (some k) (f + 1)).1 =
                set_s_next σ i (some k) := by rw [he]
            have he2 : (insert_s sb σ i (some k) (f + 1)).2 = some i := by
              rw [he]
            have hFL : insert_list sb σ i (k :: l) = i :: k :: l := by
              rw [insert_list, if_pos hc]
            rw [he1, he2, hFL]
            refine ⟨?_, eq_except_s_set_s_next σ i (some k), ?_⟩
            · refine is_s_chain.cons i (k :: l) ?_
              have hsn : ((set_s_next σ i (some k)) i).s_next = some k := by
                simp [set_s_next, set_rec]
              rw [hsn]
              refine is_s_chain_congr (is_s_chain.cons k l htail) ?_
              intro j hj
              have hji : j ≠ i := fun he' => hi (he' ▸ hj)
              rw [set_s_next, set_rec_other σ i _ j hji]
            · intro j hji _
              rw [set_s_next, set_rec_other σ i _ j hji]
          · -- walk past the head
            have ihr := ih f hndl hil hfresh (by simpa using hfuel)
            rcases ihr with ⟨hchain, hexc, huntouched⟩
            have he : insert_s sb σ i (some k) (f + 1) =
                (set_s_next (insert_s sb σ i (σ k).s_next f).1 k
                  (insert_s sb σ i (σ k).s_next f).2, some k) := by
              simp only [insert_s]
              rw [if_neg hc]
            have he1 : (insert_s sb σ i (some k) (f + 1)).1 =
                set_s_next (insert_s sb σ i (σ k).s_next f).1 k
                  (insert_s sb σ i (σ k).s_next f).2 := by rw [he]
            have he2 : (insert_s sb σ i (some k) (f + 1)).2 = some k := by
              rw [he]
            have hFL : insert_list sb σ i (k :: l) =
                k :: insert_list sb σ i l := by
              rw [insert_list, if_neg hc]
            rw [he1, he2, hFL]
            have hknotin : k ∉ insert_list sb σ i l := by
              intro hm
              rcases mem_insert_list hm with h' | h'
              · exact hik h'.symm
              · exact hkl h'
            refine ⟨?_, ?_, ?_⟩
            · refine is_s_chain.cons k (insert_list sb σ i l) ?_
              have hsn : ((set_s_next (insert_s sb σ i (σ k).s_next f).1 k
                  (insert_s sb σ i (σ k).s_next f).2) k).s_next =
                  (insert_s sb σ i (σ k).s_next f).2 := by
                simp [set_s_next, set_rec]
              rw [hsn]
              refine is_s_chain_congr hchain ?_
              intro j hj
              have hjk : j ≠ k := fun he' => hknotin (he' ▸ hj)
              rw [set_s_next,
                set_rec_other (insert_s sb σ i (σ k).s_next f).1 k _ j hjk]
            · exact eq_except_s_trans hexc
                (eq_except_s_set_s_next (insert_s sb σ i (σ k).s_next f).1 k
                  (insert_s sb σ i (σ k).s_next f).2)
            · intro j hji hjmem
              have hjk : j ≠ k := fun he' => hjmem (by simp [he'])
              have hjl : j ∉ l := fun hm => hjmem (by simp [hm])
              rw [set_s_next,
                set_rec_other (insert_s sb σ i (σ k).s_next f).1 k _ j hjk]
              exact huntouched j hji hjl

end FaultstatPtr

namespace FaultstatPtr

theorem eq_except_s_min {σ σ' : Store} (h : eq_except_s σ σ') (j : Nat) :
    (σ' j).min_fault = (σ j).min_fault := by conv_lhs => rw [h j]

theorem eq_except_s_maj {σ σ' : Store} (h : eq_except_s σ σ') (j : Nat) :
    (σ' j).maj_fault = (σ j).maj_fault := by conv_lhs => rw [h j]

theorem eq_except_s_d_min {σ σ' : Store} (h : eq_except_s σ σ') (j : Nat) :
    (σ' j).d_min_fault = (σ j).d_min_fault := by conv_lhs => rw [h j]

theorem eq_except_s_d_maj {σ σ' : Store} (h : eq_except_s σ σ') (j : Nat) :
    (σ' j).d_maj_fault = (σ j).d_maj_fault := by conv_lhs => rw [h j]

theorem eq_except_s_d_next {σ σ' : Store} (h : eq_except_s σ σ') (j : Nat) :
    (σ' j).d_next = (σ j).d_next := by conv_lhs => rw [h j]

/-- `fault_delta` over the store when no old record's pid matches: only the
new record's delta fields are written. -/
theorem fault_delta_no_match (σ : Store) (i : Nat) (old : List Nat)
    (h : ∀ j ∈ old, (σ i).pid ≠ (σ j).pid) :
    fault_delta σ i old =
      set_rec σ i { σ i with
        d_min_fault := (σ i).min_fault
        d_maj_fault := (σ i).maj_fault } := by
  induction old with
  | nil => rfl
  | cons j rest ih =>
      have hj : (σ i).pid ≠ (σ j).pid := h j (by simp)
      have he : fault_delta σ i (j :: rest) = fault_delta σ i rest := by
        simp only [fault_delta]
        rw [if_neg hj]
      rw [he]
      exact ih (fun x hx => h x (by simp [hx]))

end FaultstatPtr

namespace FaultstatPtr

theorem eq_except_s_pid {σ σ' : Store} (h : eq_except_s σ σ') (j : Nat) :
    (σ' j).pid = (σ j).pid := by conv_lhs => rw [h j]

/-- `fault_delta` writes only delta fields (of the new record) and the
`alive` flag (of the first matching old record): the counters, pid and both
chain pointers of every record are preserved, whatever the old list. -/
theorem fault_delta_field_eq (σ : Store) (i : Nat) (old : List Nat) :
    ∀ j, ((fault_delta σ i old) j).min_fault = (σ j).min_fault ∧
      ((fault_delta σ i old) j).maj_fault = (σ j).maj_fault ∧
      ((fault_delta σ i old) j).pid = (σ j).pid ∧
      ((fault_delta σ i old) j).s_next = (σ j).s_next ∧
      ((fault_delta σ i old) j).d_next = (σ j).d_next := by
  induction old with
  | nil =>
      intro j
      by_cases hj : j = i
      · subst hj; simp [fault_delta, set_rec]
      · simp [fault_delta, set_rec, hj]
  | cons j0 rest ih =>
      intro j
      by_cases hm : (σ i).pid = (σ j0).pid
      · simp only [fault_delta]
        rw [if_pos hm]
        by_cases hj0 : j = j0
        · subst hj0
          by_cases hji : j = i
          · subst hji
            simp [set_rec]
          · simp [set_rec, hji]
        · by_cases hji : j = i
          · subst hji
            simp [set_rec, hj0]
          · simp [set_rec, hj0, hji]
      · simp only [fault_delta]
        rw [if_neg hm]
        exact ih j

/-- A record other than the new record whose pid differs from the new
record's pid is left completely untouched by `fault_delta`. -/
theorem fault_delta_untouched (σ : Store) (i : Nat) (old : List Nat) (x : Nat)
    (hxi : x ≠ i) (hpid : (σ i).pid ≠ (σ x).pid) :
    fault_delta σ i old x = σ x := by
  induction old with
  | nil => simp [fault_delta, set_rec, hxi]
  | cons j0 rest ih =>
      by_cases hm : (σ i).pid = (σ j0).pid
      · have hxj0 : x ≠ j0 := by
          intro he
          subst he
          exact hpid hm
        simp only [fault_delta]
        rw [if_pos hm]
        simp [set_rec, hxj0, hxi]
      · simp only [fault_delta]
        rw [if_neg hm]
        exact ih

/-- `σ'` agrees with `σ` everywhere except possibly on `d_next` pointers. -/
def eq_except_d (σ σ' : Store) : Prop :=
  ∀ j, σ' j = { σ j with d_next := (σ' j).d_next }

theorem eq_except_d_refl (σ : Store) : eq_except_d σ σ := fun _ => rfl

theorem eq_except_d_trans {σ1 σ2 σ3 : Store}
    (h12 : eq_except_d σ1 σ2) (h23 : eq_except_d σ2 σ3) :
    eq_except_d σ1 σ3 := by
  intro j
  calc σ3 j = { σ2 j with d_next := (σ3 j).d_next } := h23 j
    _ = { σ1 j with d_next := (σ3 j).d_next } := by rw [h12 j]

theorem eq_except_d_set_d_next (σ : Store) (i : Nat) (p : Option Nat) :
    eq_except_d σ (set_d_next σ i p) := by
  intro j
  by_cases h : j = i
  · subst h; simp [set_d_next, set_rec]
  · simp [set_d_next, set_rec, h]

theorem eq_except_d_min {σ σ' : Store} (h : eq_except_d σ σ') (j : Nat) :
    (σ' j).min_fault = (σ j).min_fault := by conv_lhs => rw [h j]

theorem eq_except_d_maj {σ σ' : Store} (h : eq_except_d σ σ') (j : Nat) :
    (σ' j).maj_fault = (σ j).maj_fault := by conv_lhs => rw [h j]

theorem eq_except_d_pid {σ σ' : Store} (h : eq_except_d σ σ') (j : Nat) :
    (σ' j).pid = (σ j).pid := by conv_lhs => rw [h j]

theorem eq_except_d_s_next {σ σ' : Store} (h : eq_except_d σ σ') (j : Nat) :
    (σ' j).s_next = (σ j).s_next := by conv_lhs => rw [h j]

theorem eq_except_d_alive {σ σ' : Store} (h : eq_except_d σ σ') (j : Nat) :
    (σ' j).alive = (σ j).alive := by conv_lhs => rw [h j]

theorem eq_except_d_d_min {σ σ' : Store} (h : eq_except_d σ σ') (j : Nat) :
    (σ' j).d_min_fault = (σ j).d_min_fault := by conv_lhs => rw [h j]

theorem eq_except_d_d_maj {σ σ' : Store} (h : eq_except_d σ σ') (j : Nat) :
    (σ' j).d_maj_fault = (σ j).d_maj_fault := by conv_lhs => rw [h j]

/-- `insert_d` writes only `d_next` pointers — whatever the chain looks
like and however much fuel the walk has. -/
theorem insert_d_eq_except (sb : Nat) (σ : Store) (i : Nat) :
    ∀ (fuel : Nat) (p : Option Nat),
      eq_except_d σ (insert_d sb σ i p fuel).1 := by
  intro fuel
  induction fuel with
  | zero =>
      intro p
      cases p with
      | none => exact eq_except_d_refl σ
      | some k => exact eq_except_d_refl σ
  | succ f ihf =>
      intro p
      cases p with
      | none => exact eq_except_d_refl σ
      | some k =>
          by_cases hc : compare sb (σ k) (σ i) = true
          · have he : (insert_d sb σ i (some k) (f + 1)).1 =
                set_d_next σ i (some k) := by
              simp only [insert_d]
              rw [if_pos hc]
            rw [he]
            exact eq_except_d_set_d_next σ i (some k)
          · have he : (insert_d sb σ i (some k) (f + 1)).1 =
                set_d_next (insert_d sb σ i (σ k).d_next f).1 k
                  (insert_d sb σ i (σ k).d_next f).2 := by
              simp only [insert_d]
              rw [if_neg hc]
            rw [he]
            exact eq_except_d_trans (ihf (σ k).d_next)
              (eq_except_d_set_d_next (insert_d sb σ i (σ k).d_next f).1 k
                (insert_d sb σ i (σ k).d_next f).2)

/-- The slot `insert_d` writes back holds either its original content (the
walk moved past the head, or ran out of fuel) or the inserted record. -/
theorem insert_d_slot (sb : Nat) (σ : Store) (i : Nat) (p : Option Nat)
    (fuel : Nat) :
    (insert_d sb σ i p fuel).2 = p ∨ (insert_d sb σ i p fuel).2 = some i := by
  cases p with
  | none =>
      right
      cases fuel <;> rfl
  | some k =>
      cases fuel with
      | zero => left; rfl
      | succ f =>
          by_cases hc : compare sb (σ k) (σ i) = true
          · right
            simp only [insert_d]
            rw [if_pos hc]
          · left
            simp only [insert_d]
            rw [if_neg hc]

/-- Closed form of one died-record iteration on a dead record: splice via
`d_next`, add the counters to the running totals, negate them into the
deltas and add those to the delta totals, zero the displayed counters. -/
theorem fault_dump_died_step_eq (sb fuel : Nat) (st : dump_state) (j : Nat)
    (h : (st.heap j).alive = false) :
    fault_dump_died_step sb fuel st j =
      { heap := set_rec (set_rec (insert_d sb st.heap j st.sorted fuel).1 j
            { (insert_d sb st.heap j st.sorted fuel).1 j with
              d_min_fault := -((insert_d sb st.heap j st.sorted fuel).1 j).min_fault
              d_maj_fault := -((insert_d sb st.heap j st.sorted fuel).1 j).maj_fault }) j
            { (insert_d sb st.heap j st.sorted fuel).1 j with
              min_fault := 0
              maj_fault := 0
              d_min_fault := -((insert_d sb st.heap j st.sorted fuel).1 j).min_fault
              d_maj_fault := -((insert_d sb st.heap j st.sorted fuel).1 j).maj_fault }
        sorted := (insert_d sb st.heap j st.sorted fuel).2
        t_min_fault := st.t_min_fault +
          ((insert_d sb st.heap j st.sorted fuel).1 j).min_fault
        t_maj_fault := st.t_maj_fault +
          ((insert_d sb st.heap j st.sorted fuel).1 j).maj_fault
        t_d_min_fault := st.t_d_min_fault +
          -((insert_d sb st.heap j st.sorted fuel).1 j).min_fault
        t_d_maj_fault := st.t_d_maj_fault +
          -((insert_d sb st.heap j st.sorted fuel).1 j).maj_fault } := by
  simp only [fault_dump_died_step, h, Bool.false_eq_true, if_false,
    set_rec_self]

end FaultstatPtr

namespace FaultstatPtr

/-- Sums over a filtered-and-mapped list only depend on the predicate and
function values on the list's members. -/
theorem sum_map_filter_eq {rest : List Nat} {p q : Nat → Bool}
    {f g : Nat → Int}
    (hp : ∀ x ∈ rest, p x = q x) (hf : ∀ x ∈ rest, f x = g x) :
    ((rest.filter p).map f).sum = ((rest.filter q).map g).sum := by
  induction rest with
  | nil => rfl
  | cons a l ih =>
      have hpa := hp a (by simp)
      have hfa := hf a (by simp)
      have ihl := ih (fun x hx => hp x (by simp [hx]))
        (fun x hx => hf x (by simp [hx]))
      rw [List.filter_cons, List.filter_cons, hpa]
      by_cases hq : q a = true
      · simp only [if_pos hq, List.map_cons, List.sum_cons, hfa, ihl]
      · simp only [if_neg hq]
        exact ihl

/-- One died-record iteration on a dead record, digested: `s_next` pointers
and `alive` flags are untouched everywhere; other records keep all their
non-`d_next` fields; the record itself gets negated deltas and zeroed
counters; the totals gain its counters (running) and their negations
(delta); the chain head is kept or becomes the record itself.  None of this
needs any assumption about the chains. -/
theorem fault_dump_died_step_facts (sb fuel : Nat) (st : dump_state) (j : Nat)
    (h : (st.heap j).alive = false) :
    (∀ x, ((fault_dump_died_step sb fuel st j).heap x).s_next =
      (st.heap x).s_next) ∧
    (∀ x, ((fault_dump_died_step sb fuel st j).heap x).alive =
      (st.heap x).alive) ∧
    (∀ x, x ≠ j →
      ((fault_dump_died_step sb fuel st j).heap x).min_fault =
        (st.heap x).min_fault ∧
      ((fault_dump_died_step sb fuel st j).heap x).maj_fault =
        (st.heap x).maj_fault ∧
      ((fault_dump_died_step sb fuel st j).heap x).d_min_fault =
        (st.heap x).d_min_fault ∧
      ((fault_dump_died_step sb fuel st j).heap x).d_maj_fault =
        (st.heap x).d_maj_fault ∧
      ((fault_dump_died_step sb fuel st j).heap x).pid = (st.heap x).pid) ∧
    (((fault_dump_died_step sb fuel st j).heap j).d_min_fault =
        -(st.heap j).min_fault ∧
      ((fault_dump_died_step sb fuel st j).heap j).d_maj_fault =
        -(st.heap j).maj_fault ∧
      ((fault_dump_died_step sb fuel st j).heap j).min_fault = 0 ∧
      ((fault_dump_died_step sb fuel st j).heap j).maj_fault = 0) ∧
    (fault_dump_died_step sb fuel st j).t_min_fault =
      st.t_min_fault + (st.heap j).min_fault ∧
    (fault_dump_died_step sb fuel st j).t_maj_fault =
      st.t_maj_fault + (st.heap j).maj_fault ∧
    (fault_dump_died_step sb fuel st j).t_d_min_fault =
      st.t_d_min_fault - (st.heap j).min_fault ∧
    (fault_dump_died_step sb fuel st j).t_d_maj_fault =
      st.t_d_maj_fault - (st.heap j).maj_fault ∧
    ((fault_dump_died_step sb fuel st j).sorted = st.sorted ∨
      (fault_dump_died_step sb fuel st j).sorted = some j) := by
  have hexc : eq_except_d st.heap (insert_d sb st.heap j st.sorted fuel).1 :=
    insert_d_eq_except sb st.heap j fuel st.sorted
  have hstep := fault_dump_died_step_eq sb fuel st j h
  have hH : (fault_dump_died_step sb fuel st j).heap =
      set_rec (set_rec (insert_d sb st.heap j st.sorted fuel).1 j
        { (insert_d sb st.heap j st.sorted fuel).1 j with
          d_min_fault := -((insert_d sb st.heap j st.sorted fuel).1 j).min_fault
          d_maj_fault :=
            -((insert_d sb st.heap j st.sorted fuel).1 j).maj_fault }) j
        { (insert_d sb st.heap j st.sorted fuel).1 j with
          min_fault := 0
          maj_fault := 0
          d_min_fault := -((insert_d sb st.heap j st.sorted fuel).1 j).min_fault
          d_maj_fault :=
            -((insert_d sb st.heap j st.sorted fuel).1 j).maj_fault } := by
    rw [hstep]
  have hS : (fault_dump_died_step sb fuel st j).sorted =
      (insert_d sb st.heap j st.sorted fuel).2 := by rw [hstep]
  have hT1 : (fault_dump_died_step sb fuel st j).t_min_fault =
      st.t_min_fault +
        ((insert_d sb st.heap j st.sorted fuel).1 j).min_fault := by
    rw [hstep]
  have hT2 : (fault_dump_died_step sb fuel st j).t_maj_fault =
      st.t_maj_fault +
        ((insert_d sb st.heap j st.sorted fuel).1 j).maj_fault := by
    rw [hstep]
  have hT3 : (fault_dump_died_step sb fuel st j).t_d_min_fault =
      st.t_d_min_fault +
        -((insert_d sb st.heap j st.sorted fuel).1 j).min_fault := by
    rw [hstep]
  have hT4 : (fault_dump_died_step sb fuel st j).t_d_maj_fault =
      st.t_d_maj_fault +
        -((insert_d sb st.heap j st.sorted fuel).1 j).maj_fault := by
    rw [hstep]
  refine ⟨?_, ?_, ?_, ?_, ?_, ?_, ?_, ?_, ?_⟩
  · intro x
    rw [hH]
    by_cases hx : x = j
    · subst hx
      rw [set_rec_self]
      exact eq_except_d_s_next hexc x
    · rw [set_rec_other _ _ _ x hx, set_rec_other _ _ _ x hx]
      exact eq_except_d_s_next hexc x
  · intro x
    rw [hH]
    by_cases hx : x = j
    · subst hx
      rw [set_rec_self]
      exact eq_except_d_alive hexc x
    · rw [set_rec_other _ _ _ x hx, set_rec_other _ _ _ x hx]
      exact eq_except_d_alive hexc x
  · intro x hx
    rw [hH, set_rec_other _ _ _ x hx, set_rec_other _ _ _ x hx]
    exact ⟨eq_except_d_min hexc x, eq_except_d_maj hexc x,
      eq_except_d_d_min hexc x, eq_except_d_d_maj hexc x,
      eq_except_d_pid hexc x⟩
  · rw [hH, set_rec_self]
    refine ⟨?_, ?_, rfl, rfl⟩
    · show -(((insert_d sb st.heap j st.sorted fuel).1 j).min_fault) =
        -(st.heap j).min_fault
      rw [eq_except_d_min hexc j]
    · show -(((insert_d sb st.heap j st.sorted fuel).1 j).maj_fault) =
        -(st.heap j).maj_fault
      rw [eq_except_d_maj hexc j]
  · rw [hT1, eq_except_d_min hexc j]
  · rw [hT2, eq_except_d_maj hexc j]
  · rw [hT3, eq_except_d_min hexc j]
    omega
  · rw [hT4, eq_except_d_maj hexc j]
    omega
  · rw [hS]
    exact insert_d_slot sb st.heap j st.sorted fuel

/-- The whole died-record loop, over an arbitrary previous-tick list from an
arbitrary state: `s_next` pointers and `alive` flags are never written;
records off the list keep every non-`d_next` field; each dead record of the
list ends with negated deltas and zeroed displayed counters; the running
totals gain exactly the dead records' counters and the delta totals their
negations; and the chain head is either untouched or points at a record of
the list. -/
theorem died_pass_spec (sb fuel : Nat) :
    ∀ (todo : List Nat) (st : dump_state), todo.Nodup →
    (∀ x, ((died_pass sb fuel st todo).heap x).s_next =
      (st.heap x).s_next) ∧
    (∀ x, ((died_pass sb fuel st todo).heap x).alive =
      (st.heap x).alive) ∧
    (∀ x, x ∉ todo →
      ((died_pass sb fuel st todo).heap x).min_fault =
        (st.heap x).min_fault ∧
      ((died_pass sb fuel st todo).heap x).maj_fault =
        (st.heap x).maj_fault ∧
      ((died_pass sb fuel st todo).heap x).d_min_fault =
        (st.heap x).d_min_fault ∧
      ((died_pass sb fuel st todo).heap x).d_maj_fault =
        (st.heap x).d_maj_fault) ∧
    (∀ j ∈ todo, (st.heap j).alive = false →
      ((died_pass sb fuel st todo).heap j).d_min_fault =
        -(st.heap j).min_fault ∧
      ((died_pass sb fuel st todo).heap j).d_maj_fault =
        -(st.heap j).maj_fault ∧
      ((died_pass sb fuel st todo).heap j).min_fault = 0 ∧
      ((died_pass sb fuel st todo).heap j).maj_fault = 0) ∧
    (died_pass sb fuel st todo).t_min_fault = st.t_min_fault +
      ((todo.filter (fun x => !(st.heap x).alive)).map
        (fun x => (st.heap x).min_fault)).sum ∧
    (died_pass sb fuel st todo).t_maj_fault = st.t_maj_fault +
      ((todo.filter (fun x => !(st.heap x).alive)).map
        (fun x => (st.heap x).maj_fault)).sum ∧
    (died_pass sb fuel st todo).t_d_min_fault = st.t_d_min_fault -
      ((todo.filter (fun x => !(st.heap x).alive)).map
        (fun x => (st.heap x).min_fault)).sum ∧
    (died_pass sb fuel st todo).t_d_maj_fault = st.t_d_maj_fault -
      ((todo.filter (fun x => !(st.heap x).alive)).map
        (fun x => (st.heap x).maj_fault)).sum ∧
    ((died_pass sb fuel st todo).sorted = st.sorted ∨
      ∃ j ∈ todo, (died_pass sb fuel st todo).sorted = some j) := by
  intro todo
  induction todo with
  | nil =>
      intro st _
      refine ⟨fun x => rfl, fun x => rfl, fun x _ => ⟨rfl, rfl, rfl, rfl⟩,
        ?_, by simp [died_pass], by simp [died_pass],
        by simp [died_pass], by simp [died_pass], Or.inl rfl⟩
      intro j hj
      exact absurd hj (by simp)
  | cons j rest ih =>
      intro st hnd
      rcases List.nodup_cons.1 hnd with ⟨hjrest, hndrest⟩
      have hfold : died_pass sb fuel st (j :: rest) =
          died_pass sb fuel (fault_dump_died_step sb fuel st j) rest := rfl
      by_cases halive : (st.heap j).alive = true
      · -- the record was matched by a new record: the iteration skips it
        have hstep : fault_dump_died_step sb fuel st j = st := by
          simp [fault_dump_died_step, halive]
        rw [hfold, hstep]
        obtain ⟨h1, h2, h3, h4, h5, h6, h7, h8, h9⟩ := ih st hndrest
        have hfj : (j :: rest).filter (fun x => !(st.heap x).alive) =
            rest.filter (fun x => !(st.heap x).alive) := by
          rw [List.filter_cons]
          simp [halive]
        refine ⟨h1, h2, ?_, ?_, ?_, ?_, ?_, ?_, ?_⟩
        · intro x hx
          exact h3 x (fun hm => hx (List.mem_cons_of_mem j hm))
        · intro j1 hj1 hal
          rcases List.mem_cons.1 hj1 with rfl | hj1r
          · simp [halive] at hal
          · exact h4 j1 hj1r hal
        · rw [h5, hfj]
        · rw [h6, hfj]
        · rw [h7, hfj]
        · rw [h8, hfj]
        · rcases h9 with h | ⟨x, hx, hsome⟩
          · exact Or.inl h
          · exact Or.inr ⟨x, List.mem_cons_of_mem j hx, hsome⟩
      · -- a died record: apply the step facts, then the tail pass
        have halive1 : (st.heap j).alive = false := by
          revert halive
          cases (st.heap j).alive <;> simp
        obtain ⟨s1, s2, s3, s4, s5, s6, s7, s8, s9⟩ :=
          fault_dump_died_step_facts sb fuel st j halive1
        obtain ⟨h1, h2, h3, h4, h5, h6, h7, h8, h9⟩ :=
          ih (fault_dump_died_step sb fuel st j) hndrest
        rw [hfold]
        have hsum_min :
            ((rest.filter (fun x =>
                !((fault_dump_died_step sb fuel st j).heap x).alive)).map
              (fun x =>
                ((fault_dump_died_step sb fuel st j).heap x).min_fault)).sum =
            ((rest.filter (fun x => !(st.heap x).alive)).map
              (fun x => (st.heap x).min_fault)).sum := by
          apply sum_map_filter_eq
          · intro x hx
            rw [s2 x]
          · intro x hx
            have hxj : x ≠ j := fun he => hjrest (he ▸ hx)
            exact (s3 x hxj).1
        have hsum_maj :
            ((rest.filter (fun x =>
                !((fault_dump_died_step sb fuel st j).heap x).alive)).map
              (fun x =>
                ((fault_dump_died_step sb fuel st j).heap x).maj_fault)).sum =
            ((rest.filter (fun x => !(st.heap x).alive)).map
              (fun x => (st.heap x).maj_fault)).sum := by
          apply sum_map_filter_eq
          · intro x hx
            rw [s2 x]
          · intro x hx
            have hxj : x ≠ j := fun he => hjrest (he ▸ hx)
            exact (s3 x hxj).2.1
        have hjdead : (!(st.heap j).alive) = true := by simp [halive1]
        refine ⟨?_, ?_, ?_, ?_, ?_, ?_, ?_, ?_, ?_⟩
        · intro x
          rw [h1 x]
          exact s1 x
        · intro x
          rw [h2 x]
          exact s2 x
        · intro x hx
          have hxj : x ≠ j := fun he => hx (by simp [he])
          have hxr : x ∉ rest := fun hm => hx (List.mem_cons_of_mem j hm)
          obtain ⟨a1, a2, a3, a4⟩ := h3 x hxr
          obtain ⟨b1, b2, b3, b4, b5⟩ := s3 x hxj
          exact ⟨a1.trans b1, a2.trans b2, a3.trans b3, a4.trans b4⟩
        · intro j1 hj1 hal
          rcases List.mem_cons.1 hj1 with rfl | hj1r
          · obtain ⟨a1, a2, a3, a4⟩ := h3 j1 hjrest
            obtain ⟨c1, c2, c3, c4⟩ := s4
            exact ⟨a3.trans c1, a4.trans c2, a1.trans c3, a2.trans c4⟩
          · have hj1j : j1 ≠ j := fun he => hjrest (he ▸ hj1r)
            have hal1 :
                ((fault_dump_died_step sb fuel st j).heap j1).alive = false := by
              rw [s2 j1]
              exact hal
            obtain ⟨d1, d2, d3, d4⟩ := h4 j1 hj1r hal1
            obtain ⟨b1, b2, b3, b4, b5⟩ := s3 j1 hj1j
            exact ⟨by rw [d1, b1], by rw [d2, b2], d3, d4⟩
        · rw [h5, s5, hsum_min, List.filter_cons, if_pos hjdead]
          simp only [List.map_cons, List.sum_cons]
          omega
        · rw [h6, s6, hsum_maj, List.filter_cons, if_pos hjdead]
          simp only [List.map_cons, List.sum_cons]
          omega
        · rw [h7, s7, hsum_min, List.filter_cons, if_pos hjdead]
          simp only [List.map_cons, List.sum_cons]
          omega
        · rw [h8, s8, hsum_maj, List.filter_cons, if_pos hjdead]
          simp only [List.map_cons, List.sum_cons]
          omega
        · rcases h9 with h | ⟨x, hx, hsome⟩
          · rcases s9 with h2s | h2s
            · exact Or.inl (h.trans h2s)
            · exact Or.inr ⟨j, by simp, h.trans h2s⟩
          · exact Or.inr ⟨x, List.mem_cons_of_mem j hx, hsome⟩

end FaultstatPtr

namespace FaultstatPtr

/-- Behaviour of `fault_dump`'s first loop over an arbitrary previous-tick
list: starting from a well-formed chain state whose chain avoids the still
unprocessed fresh records, the pass produces a chain of exactly the old
chain members plus the processed records, preserves every record's
counters, pid (and hence pid comparisons), and leaves a previous-tick
record `d` whose pid matches no processed record fully untouched. -/
theorem new_pass_spec (sb : Nat) (old_idx : List Nat) (d : Nat) :
    ∀ (todo : List Nat) (fuel : Nat) (st : dump_state) (L : List Nat),
    todo.Nodup →
    (∀ i ∈ todo, i ∉ L) →
    (∀ i ∈ todo, i ≠ d) →
    (∀ i ∈ todo, (st.heap i).s_next = none) →
    (∀ i ∈ todo, (st.heap i).pid ≠ (st.heap d).pid) →
    d ∉ L →
    is_s_chain st.heap st.sorted L →
    L.Nodup →
    L.length + todo.length ≤ fuel →
    ∃ L1 : List Nat,
      is_s_chain (new_pass sb fuel old_idx st todo).heap
        (new_pass sb fuel old_idx st todo).sorted L1 ∧
      L1.Nodup ∧
      (∀ x ∈ L1, x ∈ L ∨ x ∈ todo) ∧
      L1.length = L.length + todo.length ∧
      (new_pass sb fuel old_idx st todo).heap d = st.heap d ∧
      (∀ j, ((new_pass sb fuel old_idx st todo).heap j).min_fault =
          (st.heap j).min_fault ∧
        ((new_pass sb fuel old_idx st todo).heap j).maj_fault =
          (st.heap j).maj_fault ∧
        ((new_pass sb fuel old_idx st todo).heap j).pid =
          (st.heap j).pid) := by
  intro todo
  induction todo with
  | nil =>
      intro fuel st L _ _ _ _ _ _ hchain hLnd _
      exact ⟨L, hchain, hLnd, fun x hx => Or.inl hx, by simp,
        rfl, fun j => ⟨rfl, rfl, rfl⟩⟩
  | cons i rest ih =>
      intro fuel st L hnd hLdisj hnotd hfresh hpid hdL hchain hLnd hfuel
      rcases List.nodup_cons.1 hnd with ⟨hirest, hndrest⟩
      have hid : i ≠ d := hnotd i (by simp)
      have hiL : i ∉ L := hLdisj i (by simp)
      have hfuel1 : L.length + (rest.length + 1) ≤ fuel := by
        simpa using hfuel
      have hfold : new_pass sb fuel old_idx st (i :: rest) =
          new_pass sb fuel old_idx
            (fault_dump_new_step sb fuel old_idx st i) rest := rfl
      have hfe := fault_delta_field_eq st.heap i old_idx
      have hdunt : fault_delta st.heap i old_idx d = st.heap d :=
        fault_delta_untouched st.heap i old_idx d (Ne.symm hid)
          (hpid i (by simp))
      have hchain1 : is_s_chain (fault_delta st.heap i old_idx) st.sorted L :=
        is_s_chain_congr hchain (fun j _ => (hfe j).2.2.2.1)
      have hfresh1 : ((fault_delta st.heap i old_idx) i).s_next = none := by
        rw [(hfe i).2.2.2.1]
        exact hfresh i (by simp)
      obtain ⟨hchain2, hexc2, hunt2⟩ :=
        insert_s_spec sb (fault_delta st.heap i old_idx) i hchain1
          fuel hLnd hiL hfresh1 (by omega)
      have hH1 : (fault_dump_new_step sb fuel old_idx st i).heap =
          (insert_s sb (fault_delta st.heap i old_idx) i st.sorted fuel).1 :=
        rfl
      have hd1 : (fault_dump_new_step sb fuel old_idx st i).heap d =
          st.heap d := by
        rw [hH1, hunt2 d (Ne.symm hid) hdL]
        exact hdunt
      have hpid_all : ∀ x,
          ((fault_dump_new_step sb fuel old_idx st i).heap x).pid =
          (st.heap x).pid := by
        intro x
        rw [hH1, eq_except_s_pid hexc2 x]
        exact (hfe x).2.2.1
      have hdisj1 : ∀ x ∈ rest,
          x ∉ insert_list sb (fault_delta st.heap i old_idx) i L := by
        intro x hx hmem
        rcases mem_insert_list hmem with rfl | hxl
        · exact hirest hx
        · exact hLdisj x (by simp [hx]) hxl
      have hfresh2 : ∀ x ∈ rest,
          ((fault_dump_new_step sb fuel old_idx st i).heap x).s_next =
          none := by
        intro x hx
        have hxi : x ≠ i := fun he => hirest (he ▸ hx)
        have hxL : x ∉ L := hLdisj x (by simp [hx])
        rw [hH1, hunt2 x hxi hxL, (hfe x).2.2.2.1]
        exact hfresh x (by simp [hx])
      have hpid2 : ∀ x ∈ rest,
          ((fault_dump_new_step sb fuel old_idx st i).heap x).pid ≠
          ((fault_dump_new_step sb fuel old_idx st i).heap d).pid := by
        intro x hx
        rw [hpid_all x, hpid_all d]
        exact hpid x (by simp [hx])
      have hdL1 : d ∉ insert_list sb (fault_delta st.heap i old_idx) i L := by
        intro hmem
        rcases mem_insert_list hmem with he | hm
        · exact hid he.symm
        · exact hdL hm
      obtain ⟨L2, ihchain, ihnd, ihmem, ihlen, ihd, ihfields⟩ :=
        ih fuel (fault_dump_new_step sb fuel old_idx st i)
          (insert_list sb (fault_delta st.heap i old_idx) i L)
          hndrest hdisj1 (fun x hx => hnotd x (by simp [hx])) hfresh2 hpid2
          hdL1 hchain2 (insert_list_nodup hiL hLnd)
          (by rw [insert_list_length]; omega)
      rw [hfold]
      refine ⟨L2, ihchain, ihnd, ?_, ?_, ?_, ?_⟩
      · intro x hx
        rcases ihmem x hx with hm | hm
        · rcases mem_insert_list hm with rfl | hm2
          · exact Or.inr (by simp)
          · exact Or.inl hm2
        · exact Or.inr (by simp [hm])
      · rw [ihlen, insert_list_length]
        simp only [List.length_cons]
        omega
      · rw [ihd]
        exact hd1
      · intro j
        obtain ⟨f1, f2, f3⟩ := ihfields j
        refine ⟨?_, ?_, ?_⟩
        · rw [f1, hH1, eq_except_s_min hexc2 j]
          exact (hfe j).1
        · rw [f2, hH1, eq_except_s_maj hexc2 j]
          exact (hfe j).2.1
        · rw [f3]
          exact hpid_all j

end FaultstatPtr

namespace FaultstatPtr

/-- C2 (amended): in a full dump over any new-tick and previous-tick lists,
a previous-tick record `d` whose pid occurs on no new-tick record (so the
new pass leaves it unmarked) is processed by the died loop as follows,
unconditionally: its deltas become the negation of its last known
cumulative counters and its displayed counters are zeroed; the running
totals leave the died pass increased by exactly the unmarked
records' counters (`d` among them) and the delta totals decreased by the same sums —
so `d` contributes its counters to the running totals and its negative
deltas to the delta totals.  But the died loop splices through `d_next`
while the output rows traverse `s_next`: whenever the chain head the dump
ends with is a new-tick record, every output row is a new-tick record and
the died record `d` appears in no row. -/
theorem fault_dump_died_spec (sb fuel : Nat) (σ : Store)
    (new_idx old_idx : List Nat) (d : Nat)
    (hnn : new_idx.Nodup)
    (hno : old_idx.Nodup)
    (hdisj : ∀ i ∈ new_idx, i ∉ old_idx)
    (hfS : ∀ i ∈ new_idx, (σ i).s_next = none)
    (hd_old : d ∈ old_idx)
    (hpid : ∀ i ∈ new_idx, (σ i).pid ≠ (σ d).pid)
    (halive : (σ d).alive = false)
    (hfuel : new_idx.length ≤ fuel) :
    ((fault_dump sb fuel σ new_idx old_idx).1.heap d).d_min_fault =
      -(σ d).min_fault ∧
    ((fault_dump sb fuel σ new_idx old_idx).1.heap d).d_maj_fault =
      -(σ d).maj_fault ∧
    ((fault_dump sb fuel σ new_idx old_idx).1.heap d).min_fault = 0 ∧
    ((fault_dump sb fuel σ new_idx old_idx).1.heap d).maj_fault = 0 ∧
    ((new_pass sb fuel old_idx ⟨σ, none, 0, 0, 0, 0⟩ new_idx).heap d).alive =
      false ∧
    d ∈ old_idx.filter (fun x =>
      !((new_pass sb fuel old_idx ⟨σ, none, 0, 0, 0, 0⟩
        new_idx).heap x).alive) ∧
    (fault_dump sb fuel σ new_idx old_idx).1.t_min_fault =
      (new_pass sb fuel old_idx ⟨σ, none, 0, 0, 0, 0⟩ new_idx).t_min_fault +
      ((old_idx.filter (fun x =>
          !((new_pass sb fuel old_idx ⟨σ, none, 0, 0, 0, 0⟩
            new_idx).heap x).alive)).map (fun x => (σ x).min_fault)).sum ∧
    (fault_dump sb fuel σ new_idx old_idx).1.t_maj_fault =
      (new_pass sb fuel old_idx ⟨σ, none, 0, 0, 0, 0⟩ new_idx).t_maj_fault +
      ((old_idx.filter (fun x =>
          !((new_pass sb fuel old_idx ⟨σ, none, 0, 0, 0, 0⟩
            new_idx).heap x).alive)).map (fun x => (σ x).maj_fault)).sum ∧
    (fault_dump sb fuel σ new_idx old_idx).1.t_d_min_fault =
      (new_pass sb fuel old_idx ⟨σ, none, 0, 0, 0, 0⟩ new_idx).t_d_min_fault -
      ((old_idx.filter (fun x =>
          !((new_pass sb fuel old_idx ⟨σ, none, 0, 0, 0, 0⟩
            new_idx).heap x).alive)).map (fun x => (σ x).min_fault)).sum ∧
    (fault_dump sb fuel σ new_idx old_idx).1.t_d_maj_fault =
      (new_pass sb fuel old_idx ⟨σ, none, 0, 0, 0, 0⟩ new_idx).t_d_maj_fault -
      ((old_idx.filter (fun x =>
          !((new_pass sb fuel old_idx ⟨σ, none, 0, 0, 0, 0⟩
            new_idx).heap x).alive)).map (fun x => (σ x).maj_fault)).sum ∧
    (∀ k, (fault_dump sb fuel σ new_idx old_idx).1.sorted = some k →
      k ∈ new_idx →
      d ∉ (fault_dump sb fuel σ new_idx old_idx).2 ∧
      ∀ x ∈ (fault_dump sb fuel σ new_idx old_idx).2, x ∈ new_idx) := by
  have hdnew : d ∉ new_idx := fun hm => hdisj d hm hd_old
  have hnotd : ∀ i ∈ new_idx, i ≠ d := fun i hi he =>
    hdisj i hi (by rw [he]; exact hd_old)
  obtain ⟨L1, hchain, hL1nd, hL1mem, hL1len, hheapd, hfields⟩ :=
    new_pass_spec sb old_idx d new_idx fuel ⟨σ, none, 0, 0, 0, 0⟩ []
      hnn (by simp) hnotd hfS hpid (by simp) is_s_chain.nil (by simp)
      (by simpa using hfuel)
  have hL1new : ∀ x ∈ L1, x ∈ new_idx := by
    intro x hx
    rcases hL1mem x hx with h | h
    · simp at h
    · exact h
  have hL1len1 : L1.length = new_idx.length := by simpa using hL1len
  obtain ⟨B1, B2, B3, B4, B5, B6, B7, B8, B9⟩ :=
    died_pass_spec sb fuel old_idx
      (new_pass sb fuel old_idx ⟨σ, none, 0, 0, 0, 0⟩ new_idx) hno
  have hfd1 : (fault_dump sb fuel σ new_idx old_idx).1 =
      died_pass sb fuel
        (new_pass sb fuel old_idx ⟨σ, none, 0, 0, 0, 0⟩ new_idx) old_idx :=
    rfl
  have hfd2 : (fault_dump sb fuel σ new_idx old_idx).2 =
      s_chain
        (died_pass sb fuel
          (new_pass sb fuel old_idx ⟨σ, none, 0, 0, 0, 0⟩ new_idx)
          old_idx).heap
        (died_pass sb fuel
          (new_pass sb fuel old_idx ⟨σ, none, 0, 0, 0, 0⟩ new_idx)
          old_idx).sorted fuel := rfl
  have hd_alive :
      ((new_pass sb fuel old_idx ⟨σ, none, 0, 0, 0, 0⟩
        new_idx).heap d).alive = false := by
    rw [hheapd]
    exact halive
  have hdmin :
      ((new_pass sb fuel old_idx ⟨σ, none, 0, 0, 0, 0⟩
        new_idx).heap d).min_fault = (σ d).min_fault := by
    rw [hheapd]
  have hdmaj :
      ((new_pass sb fuel old_idx ⟨σ, none, 0, 0, 0, 0⟩
        new_idx).heap d).maj_fault = (σ d).maj_fault := by
    rw [hheapd]
  have hsum_min : ((old_idx.filter (fun x =>
      !((new_pass sb fuel old_idx ⟨σ, none, 0, 0, 0, 0⟩
        new_idx).heap x).alive)).map
      (fun x => ((new_pass sb fuel old_idx ⟨σ, none, 0, 0, 0, 0⟩
        new_idx).heap x).min_fault)).sum =
      ((old_idx.filter (fun x =>
      !((new_pass sb fuel old_idx ⟨σ, none, 0, 0, 0, 0⟩
        new_idx).heap x).alive)).map (fun x => (σ x).min_fault)).sum := by
    apply sum_map_filter_eq
    · intro x hx
      rfl
    · intro x hx
      exact (hfields x).1
  have hsum_maj : ((old_idx.filter (fun x =>
      !((new_pass sb fuel old_idx ⟨σ, none, 0, 0, 0, 0⟩
        new_idx).heap x).alive)).map
      (fun x => ((new_pass sb fuel old_idx ⟨σ, none, 0, 0, 0, 0⟩
        new_idx).heap x).maj_fault)).sum =
      ((old_idx.filter (fun x =>
      !((new_pass sb fuel old_idx ⟨σ, none, 0, 0, 0, 0⟩
        new_idx).heap x).alive)).map (fun x => (σ x).maj_fault)).sum := by
    apply sum_map_filter_eq
    · intro x hx
      rfl
    · intro x hx
      exact (hfields x).2.1
  obtain ⟨D1, D2, D3, D4⟩ := B4 d hd_old hd_alive
  refine ⟨?_, ?_, ?_, ?_, hd_alive, ?_, ?_, ?_, ?_, ?_, ?_⟩
  · rw [hfd1, D1, hdmin]
  · rw [hfd1, D2, hdmaj]
  · rw [hfd1]
    exact D3
  · rw [hfd1]
    exact D4
  · exact List.mem_filter.2 ⟨hd_old, by simp [hd_alive]⟩
  · rw [hfd1, B5, hsum_min]
  · rw [hfd1, B6, hsum_maj]
  · rw [hfd1, B7, hsum_min]
  · rw [hfd1, B8, hsum_maj]
  · intro k hk hknew
    rw [hfd1] at hk
    rcases B9 with hsor | ⟨x, hxold, hsome⟩
    · have hst1sorted :
          (new_pass sb fuel old_idx ⟨σ, none, 0, 0, 0, 0⟩
            new_idx).sorted = some k := hsor.symm.trans hk
      have hchain_k : is_s_chain
          (new_pass sb fuel old_idx ⟨σ, none, 0, 0, 0, 0⟩ new_idx).heap
          (some k) L1 := hst1sorted ▸ hchain
      have hchain_fin : is_s_chain
          (died_pass sb fuel
            (new_pass sb fuel old_idx ⟨σ, none, 0, 0, 0, 0⟩ new_idx)
            old_idx).heap (some k) L1 :=
        is_s_chain_congr hchain_k (fun x _ => B1 x)
      have hrows : (fault_dump sb fuel σ new_idx old_idx).2 = L1 := by
        rw [hfd2, hk]
        exact s_chain_eq hchain_fin fuel (by rw [hL1len1]; exact hfuel)
      rw [hrows]
      exact ⟨fun hm => hdnew (hL1new d hm), hL1new⟩
    · exfalso
      have hxk : x = k := Option.some.inj (hsome.symm.trans hk)
      exact hdisj k hknew (hxk ▸ hxold)

end FaultstatPtr

namespace FaultstatPtr

/-- Concrete two-record heap for C2: index 0 is the previous-tick record
(pid 10, minor 20, major 5), index 1 the new-tick record (pid 11, minor 30,
major 0); all chain pointers NULL and flags clear, exactly as records leave
the zeroing allocator. -/
def died_cex_store : Store := fun n =>
  if n = 0 then ⟨10, 20, 5, 0, 0, 0, none, none, false⟩
  else ⟨11, 30, 0, 0, 0, 0, none, none, false⟩

/-- C2 counterexample: previous tick = {pid 10 with (minor 20, major 5)},
new tick = {pid 11 with (minor 30, major 0)}, default sort key.  The full
dump emits only the pid-11 row: the died record is spliced in through
`d_next` while the output traversal follows `s_next`, so it is dropped.
And the running totals (50, 5) *do* contain the died record's last
cumulative counters (the new records alone sum to (30, 0)).  Both facts
contradict C2 as stated (row included; no running-total contribution). -/
theorem fault_dump_died_cex :
    (fault_dump 0 3 died_cex_store [1] [0]).2 = [1] ∧
    0 ∉ (fault_dump 0 3 died_cex_store [1] [0]).2 ∧
    (fault_dump 0 3 died_cex_store [1] [0]).1.t_min_fault = 50 ∧
    (fault_dump 0 3 died_cex_store [1] [0]).1.t_min_fault ≠ 30 ∧
    (fault_dump 0 3 died_cex_store [1] [0]).1.t_maj_fault = 5 ∧
    (fault_dump 0 3 died_cex_store [1] [0]).1.t_d_min_fault = 10 ∧
    (fault_dump 0 3 died_cex_store [1] [0]).1.t_d_maj_fault = -5 ∧
    ((fault_dump 0 3 died_cex_store [1] [0]).1.heap 0).d_min_fault = -20 ∧
    ((fault_dump 0 3 died_cex_store [1] [0]).1.heap 0).d_maj_fault = -5 ∧
    ((fault_dump 0 3 died_cex_store [1] [0]).1.heap 0).min_fault = 0 := by
  decide

/-- Witness for C2's amended claim at the counterexample heap: the died
record's delta is the negated counter, its displayed counter is zeroed,
and — the chain head being the new-tick record — it appears in no row while
every row is a new-tick record. -/
theorem fault_dump_died_spec_witness :
    ((fault_dump 0 3 died_cex_store [1] [0]).1.heap 0).d_min_fault =
      -(died_cex_store 0).min_fault ∧
    ((fault_dump 0 3 died_cex_store [1] [0]).1.heap 0).min_fault = 0 ∧
    (0 ∉ (fault_dump 0 3 died_cex_store [1] [0]).2 ∧
      ∀ x ∈ (fault_dump 0 3 died_cex_store [1] [0]).2, x ∈ [1]) := by
  have h := fault_dump_died_spec 0 3 died_cex_store [1] [0] 0
    (by decide) (by decide) (by decide) (by decide) (by decide) (by decide)
    (by decide) (by decide)
  exact ⟨h.1, h.2.2.1,
    h.2.2.2.2.2.2.2.2.2.2 1 (by decide) (by decide)⟩

end FaultstatPtr

namespace Faultstat

theorem char_toNat_inj {c1 c2 : Char} (h : c1.toNat = c2.toNat) : c1 = c2 := by
  apply Char.eq_of_val_eq
  apply UInt32.eq_of_val_eq
  exact Fin.ext h

/-- `procnamecmp()` (utils.c): compare process names up to the end of the
first string or a space in the first string; 0 means match.  C strings are
modelled as NUL-free char lists; reading past the end of either yields the
NUL terminator. -/
def procnamecmp : List Char → List Char → Int
  | [], _ => 0
  | c1 :: t1, s2 =>
      if c1 = ' ' then 0
      else
        match s2 with
        | [] => (c1.toNat : Int)
        | c2 :: t2 =>
            if c1 = c2 then procnamecmp t1 t2
            else (c1.toNat : Int) - (c2.toNat : Int)

/-- POSIX `basename()` as obtained from `<libgen.h>`: the final path
component with trailing slashes stripped; `"/"` for all-slash paths, `"."`
for the empty string.  (glibc's in-place truncation only differs on paths
with trailing slashes, which the slash-free command lines compared here
never have.) -/
def basename (s : List Char) : List Char :=
  if s = [] then ['.']
  else if s.all (fun c => c = '/') then ['/']
  else
    ((s.reverse.dropWhile (fun c => c = '/')).takeWhile
      (fun c => c ≠ '/')).reverse

/-- One `pid_list_t` entry (faultstat.h): a numeric token yields a pid entry
with NULL name; a name token yields a name entry with pid 0. -/
structure pid_list where
  name : Option (List Char)
  pid : Int
deriving Repr, DecidableEq

/-- The allow-list check inside `fault_get_by_proc`: walk the pid list,
stopping at the first entry whose pid equals the process's pid, or whose
name matches the process's command line per `procnamecmp` — compared against
the cmdline's `basename` when the filter term holds no `'/'`.  The process
is sampled iff some entry matches. -/
def fault_filter_match (pids : List pid_list) (pid : Int)
    (cmdline : List Char) : Bool :=
  pids.any (fun p =>
    decide (p.pid = pid) ||
      (match p.name with
       | none => false
       | some nm =>
           decide (procnamecmp nm
             (if nm.contains '/' then cmdline else basename cmdline) = 0)))

/-- `strtok(str, ",")` tokenisation: comma-separated pieces, empty pieces
skipped. -/
def split_commas (s : List Char) : List (List Char) :=
  (s.splitOn ',').filter (fun t => t ≠ [])

/-- `strtol`'s parse of the leading digits of a token, as used by
`parse_pid_list` on numeric tokens. -/
def digits_to_int (s : List Char) : Int :=
  (s.takeWhile (fun c => c.isDigit)).foldl
    (fun acc c => acc * 10 + ((c.toNat : Int) - 48)) 0

/-- `parse_pid_list()` (utils.c): each token starting with a digit becomes a
pid entry unless that pid is already listed; any other token becomes a name
entry with pid 0; entries are prepended. -/
def parse_pid_list : List (List Char) → List pid_list → List pid_list
  | [], acc => acc
  | tok :: rest, acc =>
      match tok with
      | [] => parse_pid_list rest acc
      | c :: _ =>
          if c.isDigit then
            let pid := digits_to_int tok
            if acc.any (fun p => decide (p.pid = pid)) then
              parse_pid_list rest acc
            else parse_pid_list rest ({ name := none, pid := pid } :: acc)
          else parse_pid_list rest ({ name := some tok, pid := 0 } :: acc)

/-- `procnamecmp` returns 0 exactly when the filter term, truncated at its
first space, is an initial segment of the compared name (for NUL-free filter
terms). -/
theorem procnamecmp_eq_zero_iff (s1 : List Char) :
    ∀ s2 : List Char, (∀ c ∈ s1, 0 < c.toNat) →
    (procnamecmp s1 s2 = 0 ↔
      ∃ rest : List Char, s2 = s1.takeWhile (fun c => c ≠ ' ') ++ rest) := by
  induction s1 with
  | nil =>
      intro s2 _
      simp [procnamecmp]
  | cons c1 t1 ih =>
      intro s2 hnz
      by_cases hsp : c1 = ' '
      · subst hsp
        have h0 : procnamecmp (' ' :: t1) s2 = 0 := by
          simp [procnamecmp]
        rw [h0]
        simp [List.takeWhile_cons]
      · have htw : (c1 :: t1).takeWhile (fun c => c ≠ ' ') =
            c1 :: t1.takeWhile (fun c => c ≠ ' ') := by
          simp [List.takeWhile_cons, hsp]
        rw [htw]
        cases s2 with
        | nil =>
            have hc1 : 0 < c1.toNat := hnz c1 (by simp)
            have hv : procnamecmp (c1 :: t1) [] = (c1.toNat : Int) := by
              simp [procnamecmp, hsp]
            rw [hv]
            constructor
            · intro h; omega
            · rintro ⟨rest, hrest⟩; simp at hrest
        | cons c2 t2 =>
            by_cases hc12 : c1 = c2
            · subst hc12
              have hv : procnamecmp (c1 :: t1) (c1 :: t2) =
                  procnamecmp t1 t2 := by
                simp [procnamecmp, hsp]
              rw [hv, ih t2 (fun c hc => hnz c (by simp [hc]))]
              constructor
              · rintro ⟨rest, hrest⟩
                exact ⟨rest, by simp [hrest]⟩
              · rintro ⟨rest, hrest⟩
                simp only [List.cons_append, List.cons.injEq] at hrest
                exact ⟨rest, hrest.2⟩
            · have hv : procnamecmp (c1 :: t1) (c2 :: t2) =
                  (c1.toNat : Int) - (c2.toNat : Int) := by
                simp [procnamecmp, hsp, hc12]
              rw [hv]
              constructor
              · intro h
                exfalso
                apply hc12
                apply char_toNat_inj
                omega
              · rintro ⟨rest, hrest⟩
                simp only [List.cons_append, List.cons.injEq] at hrest
                exact absurd hrest.1.symm hc12

end Faultstat

namespace Faultstat

/-- C6: with an allow-list configured, a scanned process is kept iff its pid
equals a numeric entry, or its command line — taken as its basename when the
filter term holds no path separator — starts with a listed name truncated at
that name's first embedded space (case-sensitive, since characters are
compared exactly).  Concretely, for allow-list "sshd,4242": the pid-4242 row
is kept whatever its name, a pid-100 process named "sshd: session" is kept,
and a pid-100 process named "bash" is excluded. -/
theorem fault_filter_exact (pids : List pid_list) (pid : Int)
    (cmdline : List Char)
    (hpid0 : pid ≠ 0)
    (hname0 : ∀ p ∈ pids, p.name ≠ none → p.pid = 0)
    (hnz : ∀ p ∈ pids, ∀ c ∈ p.name.getD [], 0 < c.toNat) :
    (fault_filter_match pids pid cmdline = true ↔
      (∃ p ∈ pids, p.name = none ∧ p.pid = pid) ∨
      (∃ p ∈ pids, ∃ nm, p.name = some nm ∧
        ∃ rest : List Char,
          (if nm.contains '/' then cmdline else basename cmdline) =
            nm.takeWhile (fun c => c ≠ ' ') ++ rest)) ∧
    fault_filter_match (parse_pid_list (split_commas "sshd,4242".toList) [])
      4242 "bash".toList = true ∧
    fault_filter_match (parse_pid_list (split_commas "sshd,4242".toList) [])
      100 "sshd: session".toList = true ∧
    fault_filter_match (parse_pid_list (split_commas "sshd,4242".toList) [])
      100 "bash".toList = false := by
  refine ⟨?_, by decide, by decide, by decide⟩
  rw [fault_filter_match, List.any_eq_true]
  constructor
  · rintro ⟨p, hp, hmatch⟩
    cases hpn : p.name with
    | none =>
        simp only [hpn, Bool.or_eq_true, decide_eq_true_eq] at hmatch
        rcases hmatch with hmatch | hmatch
        · exact Or.inl ⟨p, hp, hpn, hmatch⟩
        · exact absurd hmatch (by simp)
    | some nm =>
        simp only [hpn, Bool.or_eq_true, decide_eq_true_eq] at hmatch
        rcases hmatch with hmatch | hmatch
        · exfalso
          have := hname0 p hp (by simp [hpn])
          rw [this] at hmatch
          exact hpid0 hmatch.symm
        · have hnm : ∀ c ∈ nm, 0 < c.toNat := by
            have := hnz p hp
            rw [hpn] at this
            simpa using this
          rcases (procnamecmp_eq_zero_iff nm _ hnm).1 hmatch with ⟨rest, hrest⟩
          exact Or.inr ⟨p, hp, nm, hpn, rest, hrest⟩
  · rintro (⟨p, hp, hpn, hpideq⟩ | ⟨p, hp, nm, hpn, rest, hrest⟩)
    · exact ⟨p, hp, by simp [hpideq]⟩
    · refine ⟨p, hp, ?_⟩
      have hnm : ∀ c ∈ nm, 0 < c.toNat := by
        have := hnz p hp
        rw [hpn] at this
        simpa using this
      have hz : procnamecmp nm
          (if nm.contains '/' then cmdline else basename cmdline) = 0 :=
        (procnamecmp_eq_zero_iff nm _ hnm).2 ⟨rest, hrest⟩
      simp only [hpn, Bool.or_eq_true, decide_eq_true_eq]
      exact Or.inr hz

/-- Witness for C6 at the claim's own scenario (allow-list "sshd,4242"),
with the theorem applied at pid 100 / name "sshd: session". -/
theorem fault_filter_exact_witness :
    fault_filter_match (parse_pid_list (split_commas "sshd,4242".toList) [])
      4242 "bash".toList = true ∧
    fault_filter_match (parse_pid_list (split_commas "sshd,4242".toList) [])
      100 "sshd: session".toList = true ∧
    fault_filter_match (parse_pid_list (split_commas "sshd,4242".toList) [])
      100 "bash".toList = false := by
  have h := fault_filter_exact
    (parse_pid_list (split_commas "sshd,4242".toList) [])
    100 "sshd: session".toList (by decide) (by decide) (by decide)
  exact ⟨h.2.1, h.2.2.1, h.2.2.2⟩

end Faultstat

namespace Faultstat

/-- `uname_cache_t` (faultstat.h): uid and resolved user name. -/
structure uname_cache_t where
  uid : Nat
  name : String
deriving Repr, DecidableEq

/-- `hash_uid()` (cache.c): `uid % UNAME_HASH_TABLE_SIZE` (521). -/
def hash_uid (uid : Nat) : Nat := uid % 521

/-- The bucket scan of `uname_cache_find` (first entry with matching uid). -/
def uname_bucket_find (bucket : List uname_cache_t) (uid : Nat) :
    Option uname_cache_t :=
  match bucket with
  | [] => none
  | u :: rest => if u.uid = uid then some u else uname_bucket_find rest uid

/-- `uname_cache_find()` (cache.c): scan the uid's hash bucket; on a miss,
query the system user database (`getpwuid`, modelled by the oracle `pw`),
fall back to the stringified uid when unresolvable, and prepend the new
entry to the bucket.  The Bool reports whether a system query was issued.
Allocation failure (which would abort without touching the table) is not
modelled. -/
def uname_cache_find (pw : Nat → Option String)
    (table : Nat → List uname_cache_t) (uid : Nat) :
    (Nat → List uname_cache_t) × uname_cache_t × Bool :=
  match uname_bucket_find (table (hash_uid uid)) uid with
  | some u => (table, u, false)
  | none =>
      let name := match pw uid with
        | some n => n
        | none => toString uid
      let u : uname_cache_t := ⟨uid, name⟩
      (fun h => if h = hash_uid uid then u :: table h else table h, u, true)

/-- `proc_info_t` (faultstat.h): pid, display name, kernel-thread flag
(pids are non-negative, so the `(unsigned long)pid` hash cast is the
identity). -/
structure proc_info_t where
  pid : Nat
  cmdline : Option String
  kernel_thread : Bool
deriving Repr, DecidableEq

/-- `proc_cache_hash_pid()` (cache.c): `pid % PROC_HASH_TABLE_SIZE` (503). -/
def proc_cache_hash_pid (pid : Nat) : Nat := pid % 503

/-- The bucket scan of `proc_cache_find_by_pid`. -/
def proc_bucket_find (bucket : List proc_info_t) (pid : Nat) :
    Option proc_info_t :=
  match bucket with
  | [] => none
  | p :: rest => if p.pid = pid then some p else proc_bucket_find rest pid

/-- `proc_cache_find_by_pid()` + `proc_cache_add_at_hash_index()` (cache.c):
scan the pid's bucket; on a miss, return NULL when the pid no longer exists
(`pid_exists`, an oracle over `/proc`), otherwise build the record — cmdline
via `get_pid_cmdline` (oracle), kernel-thread flag when that read fails,
comm-name replacement when it failed or `-c` was given — and prepend it to
the bucket.  The Bool reports whether any system query (existence check or
`/proc` read) was issued. -/
def proc_cache_find_by_pid (pid_exists : Nat → Bool)
    (cmdline_of comm_of : Nat → Option String) (opt_cmd_comm : Bool)
    (table : Nat → List proc_info_t) (pid : Nat) :
    (Nat → List proc_info_t) × Option proc_info_t × Bool :=
  match proc_bucket_find (table (proc_cache_hash_pid pid)) pid with
  | some p => (table, some p, false)
  | none =>
      if pid_exists pid then
        let cl := cmdline_of pid
        let kt := cl.isNone
        let cl2 := if cl.isNone || opt_cmd_comm then comm_of pid else cl
        let p : proc_info_t := ⟨pid, cl2, kt⟩
        (fun h => if h = proc_cache_hash_pid pid then p :: table h
                  else table h, some p, true)
      else (table, none, true)

/-- C7: resolving the same uid (or the same still-existing pid) twice
returns the same record both times, the second lookup issues no system query
and leaves the table untouched, and no lookup ever removes an entry from
either cache. -/
theorem cache_idempotent (pw : Nat → Option String)
    (utable : Nat → List uname_cache_t) (uid : Nat)
    (pid_exists : Nat → Bool) (cmdline_of comm_of : Nat → Option String)
    (opt_cmd_comm : Bool) (ptable : Nat → List proc_info_t) (pid : Nat)
    (hexists : pid_exists pid = true) :
    ((uname_cache_find pw (uname_cache_find pw utable uid).1 uid).2.1 =
      (uname_cache_find pw utable uid).2.1 ∧
     (uname_cache_find pw (uname_cache_find pw utable uid).1 uid).2.2 = false ∧
     (uname_cache_find pw (uname_cache_find pw utable uid).1 uid).1 =
      (uname_cache_find pw utable uid).1) ∧
    (∀ h u, u ∈ utable h → u ∈ (uname_cache_find pw utable uid).1 h) ∧
    ((proc_cache_find_by_pid pid_exists cmdline_of comm_of opt_cmd_comm
        (proc_cache_find_by_pid pid_exists cmdline_of comm_of opt_cmd_comm
          ptable pid).1 pid).2.1 =
      (proc_cache_find_by_pid pid_exists cmdline_of comm_of opt_cmd_comm
        ptable pid).2.1 ∧
     (proc_cache_find_by_pid pid_exists cmdline_of comm_of opt_cmd_comm
        (proc_cache_find_by_pid pid_exists cmdline_of comm_of opt_cmd_comm
          ptable pid).1 pid).2.2 = false ∧
     (proc_cache_find_by_pid pid_exists cmdline_of comm_of opt_cmd_comm
        (proc_cache_find_by_pid pid_exists cmdline_of comm_of opt_cmd_comm
          ptable pid).1 pid).1 =
      (proc_cache_find_by_pid pid_exists cmdline_of comm_of opt_cmd_comm
        ptable pid).1) ∧
    (∀ h p, p ∈ ptable h →
      p ∈ (proc_cache_find_by_pid pid_exists cmdline_of comm_of opt_cmd_comm
        ptable pid).1 h) := by
  refine ⟨?_, ?_, ?_, ?_⟩
  · cases hfind : uname_bucket_find (utable (hash_uid uid)) uid with
    | some u =>
        have h1 : uname_cache_find pw utable uid = (utable, u, false) := by
          rw [uname_cache_find, hfind]
        rw [h1]
        rw [uname_cache_find, hfind]
        exact ⟨rfl, rfl, rfl⟩
    | none =>
        have h1 : uname_cache_find pw utable uid =
            (fun h => if h = hash_uid uid then
                (⟨uid, match pw uid with | some n => n | none => toString uid⟩ :
                  uname_cache_t) :: utable h
              else utable h,
             ⟨uid, match pw uid with | some n => n | none => toString uid⟩,
             true) := by
          rw [uname_cache_find, hfind]
        rw [h1]
        have h2 : uname_bucket_find
            ((fun h => if h = hash_uid uid then
                (⟨uid, match pw uid with | some n => n | none => toString uid⟩ :
                  uname_cache_t) :: utable h
              else utable h) (hash_uid uid)) uid =
            some ⟨uid, match pw uid with | some n => n | none => toString uid⟩ := by
          simp [uname_bucket_find]
        rw [uname_cache_find, h2]
        exact ⟨rfl, rfl, rfl⟩
  · intro h u hu
    cases hfind : uname_bucket_find (utable (hash_uid uid)) uid with
    | some v => rw [uname_cache_find, hfind]; exact hu
    | none =>
        rw [uname_cache_find, hfind]
        by_cases hh : h = hash_uid uid
        · subst hh; simp [hu]
        · simp [hh, hu]
  · cases hfind : proc_bucket_find (ptable (proc_cache_hash_pid pid)) pid with
    | some p =>
        have h1 : proc_cache_find_by_pid pid_exists cmdline_of comm_of
            opt_cmd_comm ptable pid = (ptable, some p, false) := by
          rw [proc_cache_find_by_pid, hfind]
        rw [h1]
        rw [proc_cache_find_by_pid, hfind]
        exact ⟨rfl, rfl, rfl⟩
    | none =>
        have h1 : proc_cache_find_by_pid pid_exists cmdline_of comm_of
            opt_cmd_comm ptable pid =
            (fun h => if h = proc_cache_hash_pid pid then
                (⟨pid, if (cmdline_of pid).isNone || opt_cmd_comm then
                    comm_of pid else cmdline_of pid,
                  (cmdline_of pid).isNone⟩ : proc_info_t) :: ptable h
              else ptable h,
             some ⟨pid, if (cmdline_of pid).isNone || opt_cmd_comm then
                comm_of pid else cmdline_of pid, (cmdline_of pid).isNone⟩,
             true) := by
          rw [proc_cache_find_by_pid, hfind, if_pos hexists]
        rw [h1]
        have h2 : proc_bucket_find
            ((fun h => if h = proc_cache_hash_pid pid then
                (⟨pid, if (cmdline_of pid).isNone || opt_cmd_comm then
                    comm_of pid else cmdline_of pid,
                  (cmdline_of pid).isNone⟩ : proc_info_t) :: ptable h
              else ptable h) (proc_cache_hash_pid pid)) pid =
            some ⟨pid, if (cmdline_of pid).isNone || opt_cmd_comm then
                comm_of pid else cmdline_of pid, (cmdline_of pid).isNone⟩ := by
          simp [proc_bucket_find]
        rw [proc_cache_find_by_pid, h2]
        exact ⟨rfl, rfl, rfl⟩
  · intro h p hp
    cases hfind : proc_bucket_find (ptable (proc_cache_hash_pid pid)) pid with
    | some q => rw [proc_cache_find_by_pid, hfind]; exact hp
    | none =>
        rw [proc_cache_find_by_pid, hfind, if_pos hexists]
        by_cases hh : h = proc_cache_hash_pid pid
        · subst hh; simp [hp]
        · simp [hh, hp]

/-- Witness for C7 at a concrete cache state: empty tables, uid 0 resolved
to "root" by the oracle, pid 7 existing with cmdline "sshd". -/
theorem cache_idempotent_witness :
    (uname_cache_find (fun _ => some "root")
      (uname_cache_find (fun _ => some "root") (fun _ => []) 0).1 0).2.1 =
      (uname_cache_find (fun _ => some "root") (fun _ => []) 0).2.1 ∧
    (uname_cache_find (fun _ => some "root")
      (uname_cache_find (fun _ => some "root") (fun _ => []) 0).1 0).2.2 =
      false ∧
    (proc_cache_find_by_pid (fun _ => true) (fun _ => some "sshd")
      (fun _ => none) false
      (proc_cache_find_by_pid (fun _ => true) (fun _ => some "sshd")
        (fun _ => none) false (fun _ => []) 7).1 7).2.2 = false := by
  have h := cache_idempotent (fun _ => some "root") (fun _ => []) 0
    (fun _ => true) (fun _ => some "sshd") (fun _ => none) false
    (fun _ => []) 7 rfl
  exact ⟨h.1.1, h.1.2.1, h.2.2.1.2.1⟩

end Faultstat

namespace Faultstat

/-- Decimal digit rendering (most significant first) with a fuel bound, for
a non-negative number; empty for 0 (handled by `int_to_chars`). -/
def nat_to_chars : Nat → Nat → List Char
  | 0, _ => []
  | fuel+1, n =>
      if n = 0 then []
      else nat_to_chars fuel (n / 10) ++ [Char.ofNat (48 + n % 10)]

/-- `printf`'s `%.0f`-style integer rendering of a (rounded) value. -/
def int_to_chars (n : Int) : List Char :=
  if n = 0 then ['0']
  else if n < 0 then '-' :: nat_to_chars 30 (-n).toNat
  else nat_to_chars 30 n.toNat

/-- The unit-suffix selection of `int64_to_str()` (utils.c): plain below
10^6, `k` below 10^9, `M` below 10^12, else `G`. -/
def int64_unit (pos_val : Int) : Char :=
  if pos_val < 1000000 then ' '
  else if pos_val < 1000000000 then 'k'
  else if pos_val < 1000000000000 then 'M'
  else 'G'

/-- The scaled value `int64_to_str()` prints: the clamped input divided by
the unit's power of 1000 and rounded to an integer by `"%6.0f"`.  The C code
does this in `double` arithmetic; here it is exact integer
round-half-to-nearest (`(p + h) / d`).  At every value any theorem below
evaluates this at, the IEEE-double computation rounds identically (the
quotients are either exact integers or far from a .5 tie; only exact .5
ties, which printf rounds to even, would differ). -/
def int64_scaled_rounded (pos_val : Int) : Int :=
  if pos_val < 1000000 then pos_val
  else if pos_val < 1000000000 then (pos_val + 500) / 1000
  else if pos_val < 1000000000000 then (pos_val + 500000) / 1000000
  else (pos_val + 500000000) / 1000000000

/-- `int64_to_str()` (utils.c): clamp negative values to zero, choose unit
and scale by magnitude, and render as `"%6.0f%c"` — the rounded quotient
right-justified to at least six characters followed by the unit character
(the 12-byte buffer never truncates: even the largest int64 yields 11
characters). -/
def int64_to_str (val : Int) : String :=
  let pos_val : Int := if val < 0 then 0 else val
  let digits := int_to_chars (int64_scaled_rounded pos_val)
  String.mk (List.replicate (6 - digits.length) ' ' ++ digits ++
    [int64_unit pos_val])

/-- C8 counterexample: `int64_to_str 999999` is `"999999 "` — six digits
leave no room for the leading space in the claimed `" 999999 "` — and the
output is not fixed-width: 999999999 renders as `"1000000k"` (eight
characters) while 1000000 renders as `"  1000k"` (seven). -/
theorem int64_to_str_boundary_cex :
    int64_to_str 999999 ≠ " 999999 " ∧
    int64_to_str 999999 = "999999 " ∧
    (int64_to_str 999999999).length ≠ (int64_to_str 1000000).length := by
  decide

/-- C8 (amended): the formatter maps 999999 to `"999999 "` (plain unit,
trailing space, no leading pad), 1000000 to `"  1000k"` and 1000000000 to
`"  1000M"`; the unit thresholds sit at exact powers of 1000 (plain below
10^6, `k` below 10^9, `M` below 10^12, else `G`); these three boundary
values render seven characters wide, but the width is not fixed in general
(999999999 renders eight characters). -/
theorem int64_to_str_boundaries (val : Int) :
    int64_to_str 999999 = "999999 " ∧
    int64_to_str 1000000 = "  1000k" ∧
    int64_to_str 1000000000 = "  1000M" ∧
    (int64_to_str 999999).length = 7 ∧
    (int64_to_str 1000000).length = 7 ∧
    (int64_to_str 1000000000).length = 7 ∧
    (int64_to_str 999999999).length = 8 ∧
    (0 ≤ val → val < 1000000 → int64_unit val = ' ') ∧
    (1000000 ≤ val → val < 1000000000 → int64_unit val = 'k') ∧
    (1000000000 ≤ val → val < 1000000000000 → int64_unit val = 'M') ∧
    (1000000000000 ≤ val → int64_unit val = 'G') := by
  refine ⟨by decide, by decide, by decide, by decide, by decide, by decide,
    by decide, ?_, ?_, ?_, ?_⟩
  · intro _ h2
    rw [int64_unit, if_pos h2]
  · intro h1 h2
    rw [int64_unit, if_neg (by omega), if_pos h2]
  · intro h1 h2
    rw [int64_unit, if_neg (by omega), if_neg (by omega), if_pos h2]
  · intro h1
    rw [int64_unit, if_neg (by omega), if_neg (by omega), if_neg (by omega)]

/-- Witness for C8's amended claim: the three boundary renderings via the
theorem, and the unit thresholds exercised at 500 (plain) and 2000000
(`k`). -/
theorem int64_to_str_boundaries_witness :
    int64_to_str 999999 = "999999 " ∧
    int64_unit 500 = ' ' ∧
    int64_unit 2000000 = 'k' :=
  ⟨(int64_to_str_boundaries 0).1,
   (int64_to_str_boundaries 500).2.2.2.2.2.2.2.1 (by decide) (by decide),
   (int64_to_str_boundaries 2000000).2.2.2.2.2.2.2.2.1 (by decide)
     (by decide)⟩

/-- C10: every negative input is clamped to zero before formatting, so
`int64_to_str` renders any negative value exactly as it renders 0 — the
string `"     0 "`; in particular the negated deltas of died-process rows
print as 0, never as a negative number. -/
theorem int64_to_str_neg (val : Int) (h : val < 0) :
    int64_to_str val = int64_to_str 0 ∧ int64_to_str val = "     0 " := by
  have h1 : int64_to_str val = int64_to_str 0 := by
    simp only [int64_to_str, if_pos h]
    norm_num
  exact ⟨h1, by rw [h1]; decide⟩

/-- Witness for C10 at -5 (e.g. a died process's delta column). -/
theorem int64_to_str_neg_witness :
    int64_to_str (-5) = int64_to_str 0 ∧ int64_to_str (-5) = "     0 " :=
  int64_to_str_neg (-5) (by decide)

end Faultstat

namespace Faultstat

/-- The per-tick wait computation of the main loop (`main`, the sampling
loop): `secs = time_start + t * duration_secs - time_now`; if negative, the
tick counter is recomputed as `t = ceil((time_now - time_start) /
duration_secs)` and the wait re-derived, and if that re-derived wait is
below 0.5 seconds one full interval is added; on the non-negative path `t`
is incremented unless this pass is a resize retry (`redo`).  Returns
(wait, new tick counter).  The C `double` arithmetic is modelled over ℚ
(all comparisons and the division here are exact; no rounding of the IEEE
doubles affects the branch structure captured by these theorems). -/
def schedule_wait (time_start time_now duration_secs : ℚ) (t : ℤ)
    (redo : Bool) : ℚ × ℤ :=
  let secs := time_start + (t : ℚ) * duration_secs - time_now
  if secs < 0 then
    let tc : ℤ := ⌈(time_now - time_start) / duration_secs⌉
    let secs2 := time_start + (tc : ℚ) * duration_secs - time_now
    (if secs2 < 1/2 then secs2 + duration_secs else secs2, tc)
  else
    (secs, if redo then t else t + 1)

/-- C9 counterexample: with start 0, interval 4, tick counter 1.  At
now = 47/4 the recovered wait is 1/4 (below 0.5), and the scheduler returns
1/4 + 4 = 17/4 — not the claimed pad-to-half-an-interval, which would give
max(1/4, 2) = 2.  At now = 11 the recovered wait is 1, which is below half
an interval (2) yet is returned unpadded — the code's threshold is the
constant 0.5 seconds, not half an interval. -/
theorem schedule_wait_cex :
    (schedule_wait 0 (47/4) 4 1 false).1 = 17/4 ∧
    (17/4 : ℚ) ≠ max (1/4 : ℚ) (4/2) ∧
    (schedule_wait 0 11 4 1 false).1 = 1 ∧
    (1 : ℚ) < 4/2 := by
  have hc1 : ⌈(47/16 : ℚ)⌉ = 3 := by
    rw [Int.ceil_eq_iff]
    norm_num
  have hc2 : ⌈(11/4 : ℚ)⌉ = 3 := by
    rw [Int.ceil_eq_iff]
    norm_num
  refine ⟨?_, by norm_num, ?_, by norm_num⟩
  · simp only [schedule_wait]
    norm_num [hc1]
  · simp only [schedule_wait]
    norm_num [hc2]

/-- C9 (amended): the scheduler computes the wait for the next sample as
start + t·interval − now (incrementing t only when the pass is not a resize
retry); whenever that wait is negative it recomputes t as
⌈(now − start)/interval⌉ — which makes the re-derived wait non-negative —
and, if the re-derived wait is smaller than half a *second* (0.5), adds one
full interval to it (it does not pad to a minimum of half an interval). -/
theorem schedule_wait_spec (time_start time_now duration_secs : ℚ) (t : ℤ)
    (redo : Bool) (hdur : 0 < duration_secs) :
    (0 ≤ time_start + (t : ℚ) * duration_secs - time_now →
      schedule_wait time_start time_now duration_secs t redo =
        (time_start + (t : ℚ) * duration_secs - time_now,
          if redo then t else t + 1)) ∧
    (time_start + (t : ℚ) * duration_secs - time_now < 0 →
      (schedule_wait time_start time_now duration_secs t redo).2 =
        ⌈(time_now - time_start) / duration_secs⌉ ∧
      0 ≤ time_start +
          (⌈(time_now - time_start) / duration_secs⌉ : ℚ) * duration_secs -
          time_now ∧
      (schedule_wait time_start time_now duration_secs t redo).1 =
        (if time_start +
            (⌈(time_now - time_start) / duration_secs⌉ : ℚ) * duration_secs -
            time_now < 1/2 then
          time_start +
            (⌈(time_now - time_start) / duration_secs⌉ : ℚ) * duration_secs -
            time_now + duration_secs
        else
          time_start +
            (⌈(time_now - time_start) / duration_secs⌉ : ℚ) * duration_secs -
            time_now)) := by
  constructor
  · intro h
    simp only [schedule_wait]
    rw [if_neg (not_lt.2 h)]
  · intro h
    have hkey : 0 ≤ time_start +
        (⌈(time_now - time_start) / duration_secs⌉ : ℚ) * duration_secs -
        time_now := by
      have h1 : (time_now - time_start) / duration_secs ≤
          (⌈(time_now - time_start) / duration_secs⌉ : ℚ) := Int.le_ceil _
      have h2 : time_now - time_start ≤
          (⌈(time_now - time_start) / duration_secs⌉ : ℚ) * duration_secs := by
        have h3 := mul_le_mul_of_nonneg_right h1 (le_of_lt hdur)
        rwa [div_mul_cancel₀ _ (ne_of_gt hdur)] at h3
      linarith
    refine ⟨?_, hkey, ?_⟩
    · simp only [schedule_wait]
      rw [if_pos h]
    · simp only [schedule_wait]
      rw [if_pos h]

/-- Witness for C9's amended claim at start 0, now 47/4, interval 4, tick
counter 1: the recomputed tick counter is ⌈(47/4)/4⌉ = 3 and the returned
wait is the re-derived wait 1/4 plus one interval. -/
theorem schedule_wait_spec_witness :
    (schedule_wait 0 (47/4) 4 1 false).2 =
      ⌈((47/4 : ℚ) - 0) / 4⌉ ∧
    (0 : ℚ) ≤ 0 + (⌈((47/4 : ℚ) - 0) / 4⌉ : ℚ) * 4 - 47/4 := by
  have h := schedule_wait_spec 0 (47/4) 4 1 false (by simp)
  have h2 := h.2 (by norm_num)
  exact ⟨h2.1, h2.2.1⟩

end Faultstat
